import Mathlib

/-!
Verification of the rehacalc EMG gait-analysis pipeline.

This file is a shallow embedding, in Lean 4, of the signal-conditioning,
event-detection and cycle-normalization core found in `src/emg/app.js` and
in the two concatenated app variants of `src/unnamed/part_002`.

Modelling conventions:
* A JavaScript double is idealized as `Option ℝ`: `some x` is a finite
  value, `none` is NaN.  The pipeline guards every statistic with
  `Number.isFinite`, and the sources never produce infinities except by
  float overflow, which the idealization to `ℝ` already excludes, so the
  two non-finite classes are folded into `none`.
* JS comparisons involving NaN are false; the predicates `fgt`, `fge`,
  `flt` below encode this.
* `Array.prototype.sort` with a numeric comparator is a stable ascending
  sort; it is modelled by `List.insertionSort`, which is also stable
  (each element is inserted, right to left, before the first element it
  may precede, so equal keys keep their original order).
* Event indices are modelled as `ℤ` because the detector adds a signed
  offset to them before range-filtering.
-/

namespace EMG

/-- A JavaScript double, idealized: `some x` finite, `none` NaN. -/
abbrev JsVal := Option ℝ

/-- JS `a > b`: false whenever either side is NaN. -/
def fgt : JsVal → JsVal → Prop
  | some a, some b => b < a
  | _, _ => False

noncomputable instance : (a b : JsVal) → Decidable (fgt a b)
  | some a, some b => inferInstanceAs (Decidable (b < a))
  | some _, none => isFalse fun h => h
  | none, some _ => isFalse fun h => h
  | none, none => isFalse fun h => h

/-- JS `a >= b`: false whenever either side is NaN. -/
def fge : JsVal → JsVal → Prop
  | some a, some b => b ≤ a
  | _, _ => False

noncomputable instance : (a b : JsVal) → Decidable (fge a b)
  | some a, some b => inferInstanceAs (Decidable (b ≤ a))
  | some _, none => isFalse fun h => h
  | none, some _ => isFalse fun h => h
  | none, none => isFalse fun h => h

/-- JS `a < b`: false whenever either side is NaN. -/
def flt : JsVal → JsVal → Prop
  | some a, some b => a < b
  | _, _ => False

noncomputable instance : (a b : JsVal) → Decidable (flt a b)
  | some a, some b => inferInstanceAs (Decidable (a < b))
  | some _, none => isFalse fun h => h
  | none, some _ => isFalse fun h => h
  | none, none => isFalse fun h => h

@[simp] theorem fgt_some_some {a b : ℝ} : fgt (some a) (some b) ↔ b < a := Iff.rfl

@[simp] theorem fgt_none_right {a : JsVal} : ¬ fgt a none := by cases a <;> exact fun h => h

@[simp] theorem fgt_none_left {b : JsVal} : ¬ fgt none b := fun h => h

@[simp] theorem fge_some_some {a b : ℝ} : fge (some a) (some b) ↔ b ≤ a := Iff.rfl

@[simp] theorem fge_none_right {a : JsVal} : ¬ fge a none := by cases a <;> exact fun h => h

@[simp] theorem fge_none_left {b : JsVal} : ¬ fge none b := fun h => h

@[simp] theorem flt_some_some {a b : ℝ} : flt (some a) (some b) ↔ a < b := Iff.rfl

@[simp] theorem flt_none_right {a : JsVal} : ¬ flt a none := by cases a <;> exact fun h => h

@[simp] theorem flt_none_left {b : JsVal} : ¬ flt none b := fun h => h

/-- NaN-propagating binary arithmetic, the behaviour of `+ - * /` on doubles
(with `ℝ` idealizing the rounding away). -/
noncomputable def oBin (f : ℝ → ℝ → ℝ) : JsVal → JsVal → JsVal
  | some a, some b => some (f a b)
  | _, _ => none

/-- JS `a + b` on doubles. -/
noncomputable def oAdd : JsVal → JsVal → JsVal := oBin (· + ·)

/-- JS `a - b` on doubles. -/
noncomputable def oSub : JsVal → JsVal → JsVal := oBin (· - ·)

/-- JS `a * b` on doubles. -/
noncomputable def oMul : JsVal → JsVal → JsVal := oBin (· * ·)

/-- JS `a / b` on doubles (division by zero cannot arise at the modelled
call sites, which all guard the denominator). -/
noncomputable def oDiv : JsVal → JsVal → JsVal := oBin (· / ·)

/-- JS `Math.abs` on doubles. -/
noncomputable def oAbs : JsVal → JsVal := Option.map (fun x => |x|)

@[simp] theorem oAdd_some_some {a b : ℝ} : oAdd (some a) (some b) = some (a + b) := rfl

@[simp] theorem oSub_some_some {a b : ℝ} : oSub (some a) (some b) = some (a - b) := rfl

@[simp] theorem oMul_some_some {a b : ℝ} : oMul (some a) (some b) = some (a * b) := rfl

@[simp] theorem oDiv_some_some {a b : ℝ} : oDiv (some a) (some b) = some (a / b) := rfl

@[simp] theorem oAbs_some {a : ℝ} : oAbs (some a) = some |a| := rfl

@[simp] theorem oAdd_none_left {b : JsVal} : oAdd none b = none := rfl

@[simp] theorem oAdd_none_right {a : JsVal} : oAdd a none = none := by cases a <;> rfl

@[simp] theorem oSub_none_left {b : JsVal} : oSub none b = none := rfl

@[simp] theorem oSub_none_right {a : JsVal} : oSub a none = none := by cases a <;> rfl

@[simp] theorem oMul_none_left {b : JsVal} : oMul none b = none := rfl

@[simp] theorem oMul_none_right {a : JsVal} : oMul a none = none := by cases a <;> rfl

@[simp] theorem oDiv_none_left {b : JsVal} : oDiv none b = none := rfl

@[simp] theorem oDiv_none_right {a : JsVal} : oDiv a none = none := by cases a <;> rfl

@[simp] theorem oAbs_none : oAbs none = none := rfl

/-- JS `Math.round`: round half toward positive infinity. -/
noncomputable def jsRound (x : ℝ) : ℤ := ⌊x + 1 / 2⌋

/-- JS array read `l[i]` with a possibly signed index: out-of-range reads
give `undefined`, which every arithmetic/comparison context treats like
NaN, hence `none`. -/
def jsGetZ (l : List JsVal) (i : ℤ) : JsVal :=
  if 0 ≤ i then l.getD i.toNat none else none

/-- JS array read `l[i]` for natural indices. -/
def jsGet (l : List JsVal) (i : ℕ) : JsVal := l.getD i none

/-- JS `array.sort((x, y) => x - y)` on an all-finite array. -/
noncomputable def jsSortR (l : List ℝ) : List ℝ :=
  l.insertionSort (· ≤ ·)

/-- JS `array.sort((a, b) => a - b)` on an integer index array. -/
def jsSortZ (l : List ℤ) : List ℤ :=
  l.insertionSort (· ≤ ·)

/-- The shared robust `median` of `src/emg/app.js` lines 30-36 and
`src/unnamed/part_002` lines 45-51 / 875-881: drop non-finite entries,
sort, return NaN on an empty remainder, average the two central order
statistics on even counts. -/
noncomputable def median (arr : List JsVal) : JsVal :=
  let a := jsSortR (arr.filterMap id)
  if a.length = 0 then none
  else
    let mid := a.length / 2
    if a.length % 2 = 0 then some ((a.getD (mid - 1) 0 + a.getD mid 0) / 2)
    else some (a.getD mid 0)

/-- `mad` of `src/unnamed/part_002` lines 52-56 / 882-886 (called
`madScalar` in `src/emg/app.js` lines 38-43, same computation up to the
NaN-median short-circuit, which the NaN-propagating deviations subsume):
median absolute deviation from the median. -/
noncomputable def mad (arr : List JsVal) : JsVal :=
  let med := median arr
  median (arr.map fun v => oAbs (oSub v med))

/-- `percentile` of `src/unnamed/part_002` lines 57-65 / 887-895: linear
interpolation between order statistics of the finite sorted subset, NaN on
empty input.  All call sites use `p` between 25 and 95, for which the
index arithmetic stays in range. -/
noncomputable def percentile (arr : List JsVal) (p : ℝ) : JsVal :=
  let a := jsSortR (arr.filterMap id)
  if a.length = 0 then none
  else
    let pos := (p / 100) * ((a.length : ℝ) - 1)
    let i0 := ⌊pos⌋
    let i1 := min ((a.length : ℤ) - 1) (i0 + 1)
    let w := pos - (i0 : ℝ)
    some ((a.getD i0.toNat 0) * (1 - w) + (a.getD i1.toNat 0) * w)

/-- `mean` of `src/unnamed/part_002` lines 82-86: mean of the finite
entries, NaN when none remain. -/
noncomputable def mean (arr : List JsVal) : JsVal :=
  let fin := arr.filterMap id
  if fin.length = 0 then none else some (fin.sum / fin.length)

/-- `varRatioFinite` of `src/unnamed/part_002` lines 87-91: fraction of
finite samples, 0 for an empty array. -/
noncomputable def varRatioFinite (x : List JsVal) : ℝ :=
  if x.length = 0 then 0 else ((x.filterMap id).length : ℝ) / x.length

/-- The merge loop of `applyOffsetAndMerge` (`src/unnamed/part_002` lines
235-238 / 1080-1083): walk the sorted offset events, keeping an event only
when it is at least `minGap` past the last kept one — the earlier event of
a close pair always survives. -/
def mergeKeepFirst (minGap : ℤ) : ℤ → List ℤ → List ℤ
  | _, [] => []
  | last, v :: rest =>
    if minGap ≤ v - last then v :: mergeKeepFirst minGap v rest
    else mergeKeepFirst minGap last rest

/-- `applyOffsetAndMerge` of `src/unnamed/part_002` lines 232-240 /
1073-1085: shift every raw event by `offset`, drop events that leave
`[0, nMax)`, sort, then merge with `mergeKeepFirst`.  (When the range
filter leaves nothing, the JS code builds `[hs[0]]` = `[undefined]`, a
length-1 array that every caller immediately discards through its
`length < 2` check; this is modelled as the empty list, which those same
checks discard identically.) -/
def applyOffsetAndMerge (hsRaw : List ℤ) (offset minGap nMax : ℤ) : List ℤ :=
  let hs := jsSortZ ((hsRaw.map (· + offset)).filter fun v => decide (0 ≤ v ∧ v < nMax))
  match hs with
  | [] => []
  | h :: t => h :: mergeKeepFirst minGap h t

/-- The accumulator of `mergeByMinGap` (`src/emg/app.js` lines 403-420):
carries the last kept event and its strength; a new event closer than
`minGap` replaces the last kept one exactly when it is strictly
stronger. -/
noncomputable def mergeByMinGapAux (minGap : ℤ) : ℤ → JsVal → List (ℤ × JsVal) → List (ℤ × JsVal)
  | lh, ls, [] => [(lh, ls)]
  | lh, ls, (h, s) :: rest =>
    if h - lh < minGap then
      if fgt s ls then mergeByMinGapAux minGap h s rest
      else mergeByMinGapAux minGap lh ls rest
    else (lh, ls) :: mergeByMinGapAux minGap h s rest

/-- `mergeByMinGap` of `src/emg/app.js` lines 403-420.  Its two call sites
always pass equally long `hs` and `strength` arrays, which the `zip`
pairing assumes. -/
noncomputable def mergeByMinGap (minGap : ℤ) (hs : List ℤ) (strength : List JsVal) :
    List ℤ × List JsVal :=
  match hs with
  | [] => (hs, strength)
  | h :: ht =>
    let out := mergeByMinGapAux minGap h (strength.headD none) (ht.zip (strength.drop 1))
    (out.map Prod.fst, out.map Prod.snd)

/-- Comparison of detector scores by JS `<`, where `none` stands for the
`Infinity` that `scoreHS` returns on fewer than 2 events: `x < Infinity`
is true for finite `x`, `Infinity < x` is false. -/
def scLt : Option ℝ → Option ℝ → Prop
  | some a, some b => a < b
  | some _, none => True
  | none, _ => False

noncomputable instance : (a b : Option ℝ) → Decidable (scLt a b)
  | some a, some b => inferInstanceAs (Decidable (a < b))
  | some _, none => isTrue trivial
  | none, some _ => isFalse fun h => h
  | none, none => isFalse fun h => h

/-- Comparison of detector scores by JS `<=` (`none` = `Infinity`;
`Infinity <= Infinity` is true in JS). -/
def scLe : Option ℝ → Option ℝ → Prop
  | some a, some b => a ≤ b
  | _, none => True
  | none, some _ => False

noncomputable instance : (a b : Option ℝ) → Decidable (scLe a b)
  | some a, some b => inferInstanceAs (Decidable (a ≤ b))
  | some _, none => isTrue trivial
  | none, none => isTrue trivial
  | none, some _ => isFalse fun h => h

/-- JS boolean read `mask[i]`: out-of-range gives `undefined`, which is
falsy. -/
def jsGetB (l : List Bool) (i : ℕ) : Bool := l.getD i false

/-- `risingEdges` of `src/unnamed/part_002` lines 1008-1021 (identical at
lines 195-206 and in `src/emg/app.js` lines 159-174): maximal runs of
`true` in a binarized mask as `(start, exclusive end)` pairs; a run
touching either boundary of the recording counts as rising/falling
there. -/
def risingEdges (mask : List Bool) : List (ℕ × ℕ) :=
  let starts0 := (List.range' 1 (mask.length - 1)).filter fun i =>
    !jsGetB mask (i - 1) && jsGetB mask i
  let ends0 := (List.range' 1 (mask.length - 1)).filter fun i =>
    jsGetB mask (i - 1) && !jsGetB mask i
  let starts := if jsGetB mask 0 then 0 :: starts0 else starts0
  let ends := if jsGetB mask (mask.length - 1) then ends0 ++ [mask.length] else ends0
  starts.zip ends

/-- `localMaxima` of `src/unnamed/part_002` lines 1023-1029 / 207-211:
interior strict-left / weak-right local maxima; NaN neighbours make both
comparisons false. -/
noncomputable def localMaxima (y : List JsVal) : List ℕ :=
  (List.range' 1 (y.length - 2)).filter fun i =>
    decide (fgt (jsGet y i) (jsGet y (i - 1))) && decide (fge (jsGet y i) (jsGet y (i + 1)))

/-- The `peaks.sort((i, j) => y[j] - y[i])` step of `pickPeaksGreedy`:
stable sort by amplitude, descending.  Only indices whose amplitude beat
the (finite-or-skipped) threshold reach this sort, so `getD 0` never
fires. -/
noncomputable def peakSortDesc (y : List JsVal) (peaks : List ℕ) : List ℕ :=
  peaks.insertionSort fun i j => (jsGet y j).getD 0 ≤ (jsGet y i).getD 0

/-- The truthiness test `maxCount && chosen.length >= maxCount` of
`pickPeaksGreedy` (`null` and `0` are falsy). -/
def jsTruthyGe (maxCount : Option ℝ) (n : ℕ) : Prop :=
  match maxCount with
  | some c => c ≠ 0 ∧ c ≤ (n : ℝ)
  | none => False

noncomputable instance : (m : Option ℝ) → (n : ℕ) → Decidable (jsTruthyGe m n)
  | some c, n => inferInstanceAs (Decidable (c ≠ 0 ∧ c ≤ (n : ℝ)))
  | none, _ => isFalse fun h => h

/-- The greedy selection loop of `pickPeaksGreedy` (`src/unnamed/part_002`
lines 1036-1045): take amplitude-ranked candidates in order, keeping one
only when it is at least `minDist` from every kept peak, stopping once a
truthy `maxCount` is reached. -/
noncomputable def greedyPick (minDist : ℤ) (maxCount : Option ℝ) :
    List ℕ → List ℕ → List ℕ
  | chosen, [] => chosen
  | chosen, idx :: rest =>
    if ∀ c ∈ chosen, ¬ |(idx : ℤ) - (c : ℤ)| < minDist then
      let chosen2 := chosen ++ [idx]
      if jsTruthyGe maxCount chosen2.length then chosen2
      else greedyPick minDist maxCount chosen2 rest
    else greedyPick minDist maxCount chosen rest

/-- `pickPeaksGreedy` of `src/unnamed/part_002` lines 1032-1048 / 212-226:
local maxima above `thr`, greedily thinned by `minDist` in amplitude
order, returned ascending. -/
noncomputable def pickPeaksGreedy (y : List JsVal) (minDist : ℤ) (thr : JsVal)
    (maxCount : Option ℝ) : List ℕ :=
  let peaks := (localMaxima y).filter fun i => decide (fgt (jsGet y i) thr)
  let chosen := greedyPick minDist maxCount [] (peakSortDesc y peaks)
  chosen.insertionSort (· ≤ ·)

/-- `refineToOnset` of `src/unnamed/part_002` lines 1050-1054 / 227-231:
walk back from a peak while the envelope stays above `thrOff`. -/
noncomputable def refineToOnset (y : List JsVal) : ℕ → JsVal → ℕ
  | 0, _ => 0
  | i + 1, thrOff =>
    if fgt (jsGet y (i + 1)) thrOff then refineToOnset y i thrOff else i + 1

/-- The inter-event interval list `(hs[i] - hs[i-1]) / fs` shared by
`scoreHS` and `chooseEveryOtherIfDouble`. -/
noncomputable def intervalsOf (hs : List ℤ) (fs : ℝ) : List ℝ :=
  (hs.zip hs.tail).map fun p => (((p.2 - p.1 : ℤ) : ℝ) / fs)

/-- `scoreHS` of `src/unnamed/part_002` lines 1056-1071 (lower is better):
`Infinity` (`none`) on fewer than 2 events, else a weighted sum of the
implausible-interval fraction, the interval coefficient of variation, the
deviation of the median interval from 0.7 s, and an optional
expected-count penalty.  The median of the nonempty finite interval list
is always finite, so its `getD 0` default is never taken; all call sites
pass `fs > 0`, so the interval divisions are ordinary. -/
noncomputable def scoreHS (hs : List ℤ) (fs : ℝ) (plausibleStep : ℝ × ℝ)
    (expectedCount : Option ℝ) : Option ℝ :=
  if hs.length < 2 then none
  else
    let ints := intervalsOf hs fs
    let meanInt := ints.sum / (ints.length : ℝ)
    let medInt := (median (ints.map some)).getD 0
    let sdInt := Real.sqrt ((ints.map fun v => (v - meanInt) * (v - meanInt)).sum / (ints.length : ℝ))
    let cv := sdInt / (meanInt + 1e-12)
    let bad := ((ints.filter fun v => decide (v < plausibleStep.1 ∨ plausibleStep.2 < v)).length : ℝ) /
      (ints.length : ℝ)
    let base := 5.0 * bad + 2.0 * cv + 0.5 * |medInt - 0.7|
    some (match expectedCount with
      | some e => base + 0.8 * |(hs.length : ℝ) - e|
      | none => base)

/-- JS `l.filter((_, i) => i % 2 === 0)`. -/
def everyOtherEven (l : List ℤ) : List ℤ :=
  (l.enum.filter fun p => p.1 % 2 = 0).map Prod.snd

/-- JS `l.filter((_, i) => i % 2 === 1)`. -/
def everyOtherOdd (l : List ℤ) : List ℤ :=
  (l.enum.filter fun p => p.1 % 2 = 1).map Prod.snd

/-- The test `expectedCount !== null && hs.length >= expectedCount * 1.6`
of `chooseEveryOtherIfDouble`. -/
def countLooksDoubled (expectedCount : Option ℝ) (n : ℕ) : Prop :=
  match expectedCount with
  | some e => e * 1.6 ≤ (n : ℝ)
  | none => False

noncomputable instance : (e : Option ℝ) → (n : ℕ) → Decidable (countLooksDoubled e n)
  | some e, n => inferInstanceAs (Decidable (e * 1.6 ≤ (n : ℝ)))
  | none, _ => isFalse fun h => h

/-- `chooseEveryOtherIfDouble` of `src/unnamed/part_002` lines 1442-1458
(identical at lines 383-393): on at least 6 events whose median interval
looks doubled (below 0.5 s, or the count exceeds 1.6 x the expected
count), keep whichever of the even/odd index subsequences scores
better. -/
noncomputable def chooseEveryOtherIfDouble (hs : List ℤ) (fs : ℝ)
    (expectedCount : Option ℝ) : List ℤ :=
  if hs.length < 6 then hs
  else
    let medInt := median ((intervalsOf hs fs).map some)
    let looksDouble := flt medInt (some 0.50) ∨ countLooksDoubled expectedCount hs.length
    if looksDouble then
      let candA := everyOtherEven hs
      let candB := everyOtherOdd hs
      if scLe (scoreHS candA fs (0.35, 1.6) expectedCount)
              (scoreHS candB fs (0.35, 1.6) expectedCount)
      then candA else candB
    else hs

/-- The detection-strategy tag stored in the `k` field of a detection
result: the winning multiplier for MAD-threshold detection, or the string
tags `"peak-fallback"` / `"peak-direct"`. -/
inductive KTag where
  | num : ℝ → KTag
  | peakFallback : KTag
  | peakDirect : KTag

/-- A detection result `{k, thr, hs, score}` as returned by `detectHS`
(`src/unnamed/part_002` lines 1135-1151). -/
structure HSBest where
  k : KTag
  thr : JsVal
  hs : List ℤ
  score : Option ℝ

/-- The one failure `detectHS` can raise (its thrown `Error`). -/
inductive DetectErr where
  | detectionFailure : DetectErr
deriving DecidableEq

/-- The detector options destructured at `src/unnamed/part_002` lines
1093-1099, with the defaults already resolved by the caller. -/
structure DetectOpts where
  expectedCount : Option ℝ
  minBurstMs : ℝ
  minGapMs : ℝ
  offsetMs : ℝ
  plausibleStep : ℝ × ℝ

/-- The multiplier sweep `for (k = 1.2; k <= 4.0 + 1e-9; k += 0.1)` with
`Math.round(k * 100) / 100` (`src/unnamed/part_002` lines 1114-1115): the
float accumulation error stays far below the rounding grain and the
`1e-9` slack, so the swept multipliers are exactly 1.2, 1.3, ..., 4.0. -/
noncomputable def kSweepVals : List ℝ :=
  (List.range 29).map fun i => ((12 + i : ℕ) : ℝ) / 10

/-- The MAD substitution of `src/unnamed/part_002` lines 1106-1112: when
the MAD is NaN or below `1e-12`, fall back to the scaled inter-quartile
range `(P75 - P25) / 1.349`. -/
noncomputable def detectSigma (env : List JsVal) : JsVal :=
  let m := mad env
  match m with
  | some v =>
    if v < 1e-12 then oDiv (oSub (percentile env 75) (percentile env 25)) (some 1.349)
    else m
  | none => oDiv (oSub (percentile env 75) (percentile env 25)) (some 1.349)

/-- The guard `Number.isFinite(m) && m > 1e-12` that enables the
MAD-threshold branch (`src/unnamed/part_002` line 1120). -/
def sigmaUsable : JsVal → Prop
  | some v => 1e-12 < v
  | none => False

noncomputable instance : (m : JsVal) → Decidable (sigmaUsable m)
  | some v => inferInstanceAs (Decidable ((1e-12 : ℝ) < v))
  | none => isFalse fun h => h

/-- One iteration body of the `k` sweep (`src/unnamed/part_002` lines
1121-1132): threshold `med + k * m`, binarize, filter bursts shorter than
`minBurst`, take burst starts, offset-and-merge; `none` when the `continue`
statements skip the candidate (no surviving burst, or fewer than 2 merged
events). -/
noncomputable def madCandidate (env : List JsVal) (med m : JsVal)
    (minBurst minGap offset : ℤ) (k : ℝ) : Option (JsVal × List ℤ) :=
  let thr := oAdd med (oMul (some k) m)
  let mask := env.map fun v => decide (fgt v thr)
  let segs := (risingEdges mask).filter fun se => decide (minBurst ≤ (se.2 : ℤ) - (se.1 : ℤ))
  if segs.length = 0 then none
  else
    let hs := applyOffsetAndMerge (segs.map fun se => ((se.1 : ℕ) : ℤ)) offset minGap (env.length : ℤ)
    if hs.length < 2 then none else some (thr, hs)

/-- The body of the `k` sweep loop of `detectHS` (`src/unnamed/part_002`
lines 1121-1136): evaluate the candidate at `k` and keep it when it
strictly beats the best score so far (`null` best loses to anything). -/
noncomputable def sweepStep (env : List JsVal) (fs : ℝ) (o : DetectOpts) (med m : JsVal)
    (minBurst minGap offset : ℤ) (best : Option HSBest) (k : ℝ) : Option HSBest :=
  match madCandidate env med m minBurst minGap offset k with
  | none => best
  | some (thr, hs) =>
    let sc := scoreHS hs fs o.plausibleStep o.expectedCount
    match best with
    | none => some (HSBest.mk (KTag.num k) thr hs sc)
    | some b => if scLt sc b.score then some (HSBest.mk (KTag.num k) thr hs sc) else best

/-- The peak fallback of `detectHS` (`src/unnamed/part_002` lines
1140-1153): greedy peak picking, onset refinement and offset-merge; if
that yields fewer than 2 events, retry with the raw peaks
(`peak-direct`); else fail. -/
noncomputable def detectHSPeakFallback (env : List JsVal) (fs : ℝ) (o : DetectOpts)
    (minGap offset : ℤ) : Except DetectErr HSBest :=
  let thrPeak := percentile env 80
  let thrOff := percentile env 60
  let peaks := pickPeaksGreedy env minGap thrPeak o.expectedCount
  let fallback1 : Option HSBest :=
    if 2 ≤ peaks.length then
      let onsets := peaks.map fun p => ((refineToOnset env p thrOff : ℕ) : ℤ)
      let hs := applyOffsetAndMerge onsets offset minGap (env.length : ℤ)
      if 2 ≤ hs.length then
        some (HSBest.mk KTag.peakFallback thrPeak hs (scoreHS hs fs o.plausibleStep o.expectedCount))
      else none
    else none
  match fallback1 with
  | some b => Except.ok b
  | none =>
    let direct := applyOffsetAndMerge (peaks.map fun p => ((p : ℕ) : ℤ)) offset minGap (env.length : ℤ)
    if 2 ≤ direct.length then
      Except.ok (HSBest.mk KTag.peakDirect thrPeak direct
        (scoreHS direct fs o.plausibleStep o.expectedCount))
    else Except.error DetectErr.detectionFailure

/-- `detectHS` of `src/unnamed/part_002` lines 1092-1154: MAD-threshold
burst-onset search over the multiplier sweep keeping the lowest-scoring
candidate, then the peak fallback, then failure.  The first app variant of
the same file (lines 256-313) is the same function except that it tags
results with a `mode` string and lacks the final raw-peak (`peak-direct`)
attempt; neither difference affects any property proved below. -/
noncomputable def detectHS (env : List JsVal) (fs : ℝ) (o : DetectOpts) :
    Except DetectErr HSBest :=
  let minBurst := jsRound (fs * o.minBurstMs / 1000)
  let minGap := jsRound (fs * o.minGapMs / 1000)
  let offset := jsRound (fs * o.offsetMs / 1000)
  let med := median env
  let m := detectSigma env
  let best :=
    if sigmaUsable m then
      kSweepVals.foldl (sweepStep env fs o med m minBurst minGap offset) none
    else none
  match best with
  | some b => Except.ok b
  | none => detectHSPeakFallback env fs o minGap offset

/-- One step of the running maximum `if (env[i] > mx) mx = env[i]` with
`mx` starting at `-Infinity` (`none` here): NaN values never win, any
finite value beats `-Infinity`. -/
noncomputable def maxStep (acc v : JsVal) : JsVal :=
  match v with
  | none => acc
  | some x =>
    match acc with
    | none => some x
    | some mx => if mx < x then some x else acc

/-- The `-Infinity`-seeded running maximum loop of `percentPeak`: `none`
exactly when no finite value was seen. -/
noncomputable def foldMax (l : List JsVal) : JsVal := l.foldl maxStep none

/-- The integer index window `[s, e)` (empty when `e ≤ s`). -/
def rangeZ (s e : ℤ) : List ℤ := (List.range (e - s).toNat).map fun i => s + i

/-- JS `Math.max(...env)`: NaN if any entry is NaN, `-Infinity` (hence
`none`, a non-finite) on an empty array, the maximum otherwise. -/
noncomputable def jsMaxSpread (l : List JsVal) : JsVal :=
  if l.any fun v => v.isNone then none else foldMax l

/-- The reference of `percentPeak` (`src/unnamed/part_002` lines
1157-1165): with at least 2 events, the running maximum over the
half-open index window `[hs[0], hs[last])`; otherwise `Math.max(...env)`.
`none` stands for a non-finite reference (NaN or `-Infinity`), which the
caller rejects with `Number.isFinite`. -/
noncomputable def percentPeakRef (env : List JsVal) (hs : List ℤ) : JsVal :=
  if 2 ≤ hs.length then
    foldMax ((rangeZ (hs.headD 0) (hs.getLastD 0)).map fun i => jsGetZ env i)
  else jsMaxSpread env

/-- `percentPeak` of `src/unnamed/part_002` lines 1156-1171 (identical at
lines 315-329 and `src/emg/app.js` lines 525-543): scale every sample to
`value / ref * 100`; if the reference is non-finite or non-positive,
return an all-NaN array instead of raising. -/
noncomputable def percentPeak (env : List JsVal) (hs : List ℤ) : List JsVal :=
  match percentPeakRef env hs with
  | some r =>
    if r ≤ 0 then List.replicate env.length none
    else env.map fun v => v.map fun x => x / r * 100
  | none => List.replicate env.length none

/-- `linspace` of `src/unnamed/part_002` lines 66-71 / 896-901.  All call
sites pass `n ≥ 2` (the cycle grid), keeping the step finite. -/
noncomputable def linspace (a b : ℝ) (n : ℕ) : List ℝ :=
  (List.range n).map fun i => a + (b - a) / ((n : ℝ) - 1) * (i : ℝ)

/-- The linear interpolation `yseg[i0] * (1 - w) + yseg[i1] * w` of
`normalizeCycles`, NaN-propagating. -/
noncomputable def lerpJs (a b : JsVal) (w : ℝ) : JsVal :=
  match a, b with
  | some x, some y => some (x * (1 - w) + y * w)
  | _, _ => none

/-- The inner resampling loop of `normalizeCycles` (`src/unnamed/part_002`
lines 1183-1191): map one envelope segment onto `nPoints` equally spaced
positions with linear interpolation. -/
noncomputable def resampleSeg (yseg : List JsVal) (nPoints : ℕ) : List JsVal :=
  let last := yseg.length - 1
  (List.range nPoints).map fun j =>
    let pos := ((j : ℝ) / ((nPoints : ℝ) - 1)) * (last : ℝ)
    let i0 := ⌊pos⌋.toNat
    let i1 := min last (i0 + 1)
    let w := pos - ((⌊pos⌋ : ℤ) : ℝ)
    lerpJs (jsGet yseg i0) (jsGet yseg i1) w

/-- The `{grid, cycles}` record built by `normalizeCycles`. -/
structure CycOut where
  grid : List ℝ
  cycles : List (List JsVal)

/-- `normalizeCycles` of `src/unnamed/part_002` lines 1173-1195 (identical
at lines 330-350 and `src/emg/app.js` lines 545-567): for each consecutive
event pair, skip segments shorter than 3 samples, else resample the
`[hs[i], hs[i+1])` slice onto the `nPoints` grid.  The callers only pass
event lists already filtered into `[0, y.length)`, for which the
`drop/take` slice agrees with JS `subarray`. -/
noncomputable def normalizeCycles (y : List JsVal) (hs : List ℤ) (nPoints : ℕ) : CycOut :=
  let grid := linspace 0 100 nPoints
  let cycles := (hs.zip hs.tail).filterMap fun p =>
    if p.2 ≤ p.1 + 2 then none
    else some (resampleSeg ((y.drop p.1.toNat).take (p.2 - p.1).toNat) nPoints)
  CycOut.mk grid cycles

/-- JS `Math.sqrt` on doubles (its argument is a mean of squares at every
call site, hence nonnegative). -/
noncomputable def oSqrt : JsVal → JsVal := Option.map Real.sqrt

/-- The `{mean, sd}` record built by `meanAndSD`. -/
structure MeanSD where
  mean : List JsVal
  sd : List JsVal

/-- The inner accumulation of the first (mean) loop of `meanAndSD` at grid
point `j`: sum and count of the finite contributions `cycles[i][j]`. -/
noncomputable def meanColAt (cycles : List (List JsVal)) (j : ℕ) : JsVal :=
  let sc := cycles.foldl (fun sc c =>
    match jsGet c j with
    | some v => (sc.1 + v, sc.2 + 1)
    | none => sc) ((0 : ℝ), (0 : ℕ))
  if 0 < sc.2 then some (sc.1 / (sc.2 : ℝ)) else none

/-- The inner accumulation of the second (SD) loop of `meanAndSD` at grid
point `j`, reading the already computed `mean[j]` as `mj`: the squared
deviations of the finite contributions, divided by their count `c`, under
a square root — NaN when `c ≤ 1`. -/
noncomputable def sdColAt (cycles : List (List JsVal)) (mj : JsVal) (j : ℕ) : JsVal :=
  let sc := cycles.foldl (fun sc c =>
    match jsGet c j with
    | some v => (oAdd sc.1 (oMul (oSub (some v) mj) (oSub (some v) mj)), sc.2 + 1)
    | none => sc) ((some 0 : JsVal), (0 : ℕ))
  if 1 < sc.2 then oSqrt (oDiv sc.1 (some (sc.2 : ℝ))) else none

/-- `meanAndSD` of `src/unnamed/part_002` lines 1197-1223 / 351-375 and
`src/emg/app.js` lines 569-596: per grid point, the mean of the finite
contributions (NaN when there are none) and the square root of the sum of
squared deviations from that mean divided by the finite-contribution
count `c` (NaN when `c ≤ 1`).  The two source loops over `j` are the two
range maps; the SD loop reads `mean[j]` exactly as the source does. -/
noncomputable def meanAndSD (cycles : List (List JsVal)) : MeanSD :=
  if cycles.length = 0 then MeanSD.mk [] []
  else
    let m := (cycles.headD []).length
    let meanArr := (List.range m).map fun j => meanColAt cycles j
    let sdArr := (List.range m).map fun j => sdColAt cycles (jsGet meanArr j) j
    MeanSD.mk meanArr sdArr

/-- Leading-NaN counter used to translate the gap-walking loop of
`sanitizeArray`: number of leading `none` entries and the remainder. -/
def splitNones : List JsVal → ℕ × List JsVal
  | none :: rest => let p := splitNones rest; (p.1 + 1, p.2)
  | l => (0, l)

theorem splitNones_snd_length_le : (l : List JsVal) → (splitNones l).2.length ≤ Nat.succ (l.length)
  | [] => by simp [splitNones]
  | some v :: rest => by simp [splitNones]
  | none :: rest => by
    simpa [splitNones] using Nat.le_succ_of_le (splitNones_snd_length_le rest)

theorem splitNones_snd_length_le_self : (l : List JsVal) → (splitNones l).2.length ≤ l.length
  | [] => by simp [splitNones]
  | some v :: rest => by simp [splitNones]
  | none :: rest => by
    simpa [splitNones] using Nat.le_succ_of_le (splitNones_snd_length_le_self rest)

/-- The gap-interpolation loop of `sanitizeArray` (`src/unnamed/part_002`
lines 106-122), written with a list-length fuel to keep the recursion
structural: given the last finite value `left`, emit finite values,
linearly bridging each run of NaNs toward the next finite value (or
holding `left` when the run reaches the end of the array).  The fuel never
runs out when it starts at the list length, because each step consumes at
least one element. -/
noncomputable def fillGapsFuel : ℕ → ℝ → List JsVal → List ℝ
  | 0, _, _ => []
  | fuel + 1, left, l =>
    match l with
    | [] => []
    | some v :: rest => v :: fillGapsFuel fuel v rest
    | none :: rest =>
      let p := splitNones rest
      let gap : ℝ := ((p.1 + 2 : ℕ) : ℝ)
      let right : ℝ :=
        match p.2 with
        | some v :: _ => v
        | _ => left
      (((List.range (p.1 + 1)).map fun k =>
        left * (1 - ((k + 1 : ℕ) : ℝ) / gap) + right * (((k + 1 : ℕ) : ℝ) / gap)) ++
        fillGapsFuel fuel left p.2)

/-- The gap-interpolation loop of `sanitizeArray`, at full fuel. -/
noncomputable def fillGaps (left : ℝ) (l : List JsVal) : List ℝ :=
  fillGapsFuel l.length left l

/-- `sanitizeArray` of `src/unnamed/part_002` lines 92-124: an all-NaN
array becomes all zeros; otherwise the leading NaNs are back-filled with
the first finite value and every interior NaN run is linearly
interpolated, so the result holds only finite values. -/
noncomputable def sanitizeArray (x : List JsVal) : List JsVal :=
  let p := splitNones x
  match p.2 with
  | some v :: rest => (List.replicate p.1 v ++ v :: fillGaps v rest).map some
  | _ => List.replicate x.length (some 0)

/-- `movingRMS` of `src/unnamed/part_002` lines 129-146 / 925-942 and
`src/emg/app.js` lines 140-157: centered moving RMS over a window clipped
to the signal bounds, via a prefix sum of squares.  `win ≥ 1` at the only
call site, so the window always holds at least one sample. -/
noncomputable def movingRMS (x : List JsVal) (win : ℤ) : List JsVal :=
  let n := x.length
  let half := (win / 2).toNat
  let sq := x.map fun v => oMul v v
  let pref := sq.scanl oAdd (some 0)
  (List.range n).map fun i =>
    let s := i - half
    let e := min n (i + half + 1)
    oSqrt (oDiv (oSub (jsGet pref e) (jsGet pref s)) (some ((e - s : ℕ) : ℝ)))

/-- The five normalized biquad coefficients `{b0, b1, b2, a1, a2}`. -/
structure BiquadCoeffs where
  b0 : ℝ
  b1 : ℝ
  b2 : ℝ
  a1 : ℝ
  a2 : ℝ

/-- The two biquad types accepted by `biquadCoeffs`. -/
inductive FilterType where
  | lowpass : FilterType
  | highpass : FilterType

/-- `biquadCoeffs` of `src/unnamed/part_002` lines 944-976 / 151-165 and
`src/emg/app.js` lines 53-85, at the Butterworth quality `Q = 1/√2` used
by every call site. -/
noncomputable def biquadCoeffs (ty : FilterType) (fc fs : ℝ) : BiquadCoeffs :=
  let w0 := 2 * Real.pi * fc / fs
  let cosw0 := Real.cos w0
  let sinw0 := Real.sin w0
  let alpha := sinw0 / (2 * (1 / Real.sqrt 2))
  match ty with
  | FilterType.lowpass =>
    let a0 := 1 + alpha
    BiquadCoeffs.mk ((1 - cosw0) / 2 / a0) ((1 - cosw0) / a0) ((1 - cosw0) / 2 / a0)
      (-2 * cosw0 / a0) ((1 - alpha) / a0)
  | FilterType.highpass =>
    let a0 := 1 + alpha
    BiquadCoeffs.mk ((1 + cosw0) / 2 / a0) (-(1 + cosw0) / a0) ((1 + cosw0) / 2 / a0)
      (-2 * cosw0 / a0) ((1 - alpha) / a0)

/-- The direct-form-II-transposed loop of `biquadFilter`
(`src/unnamed/part_002` lines 978-989): state carries the two previous
inputs and outputs, initialized to zero. -/
noncomputable def biquadStep (c : BiquadCoeffs) :
    JsVal → JsVal → JsVal → JsVal → List JsVal → List JsVal
  | _, _, _, _, [] => []
  | x1, x2, y1, y2, x0 :: rest =>
    let y0 := oSub (oSub (oAdd (oAdd (oMul (some c.b0) x0) (oMul (some c.b1) x1))
      (oMul (some c.b2) x2)) (oMul (some c.a1) y1)) (oMul (some c.a2) y2)
    y0 :: biquadStep c x0 x1 y0 y1 rest

/-- `biquadFilter` of `src/unnamed/part_002` lines 978-989 / 166-177. -/
noncomputable def biquadFilter (x : List JsVal) (c : BiquadCoeffs) : List JsVal :=
  biquadStep c (some 0) (some 0) (some 0) (some 0) x

/-- `filtfilt` of `src/unnamed/part_002` lines 992-998 / 178-184: forward
pass, reverse, second pass, reverse back (`reverseArray` is a plain
reversal). -/
noncomputable def filtfilt (x : List JsVal) (c : BiquadCoeffs) : List JsVal :=
  (biquadFilter (biquadFilter x c).reverse c).reverse

/-- `butterworth2xFILT` / `butter2x` of `src/unnamed/part_002` lines
1001-1006 / 185-190: the same forward-backward biquad applied twice. -/
noncomputable def butter2x (x : List JsVal) (ty : FilterType) (fc fs : ℝ) : List JsVal :=
  filtfilt (filtfilt x (biquadCoeffs ty fc fs)) (biquadCoeffs ty fc fs)

/-- The parameter bundle destructured by `computePipeline`
(`src/unnamed/part_002` line 540). -/
structure PipeParams where
  hp : ℝ
  lp : ℝ
  rmsMs : ℝ
  minBurstMs : ℝ
  minGapMs : ℝ
  offsetMs : ℝ
  nPoints : ℕ

/-- The failures `computePipeline` can raise, in source order:
too many missing samples (the `finiteRatio < 0.95` throw), recording
shorter than 2 s, high-pass or low-pass cutoff at or above Nyquist, and
the detection failure propagated out of `detectHS`. -/
inductive PipeErr where
  | tooManyMissing : PipeErr
  | tooShort : PipeErr
  | hpTooHigh : PipeErr
  | lpTooHigh : PipeErr
  | detectFail : PipeErr
deriving DecidableEq

/-- The result record of `computePipeline` (`src/unnamed/part_002` lines
577-588), without the purely informational `debug` block. -/
structure PipeResult where
  t : List ℝ
  envRaw : List JsVal
  envPct : List JsVal
  hs : List ℤ
  k : KTag
  thr : JsVal
  grid : List ℝ
  cycles : List (List JsVal)
  mean : List JsVal
  sd : List JsVal

/-- `computePipeline` of `src/unnamed/part_002` lines 539-589: sanitize,
check the finite-sample ratio of the *sanitized* array against the 0.95
floor, demean, check the 2-second length floor, check both cutoffs against
Nyquist, band-filter, rectify, envelope, detect events, normalize and
aggregate.  The `plausibleStep` option of `detectHS` is left to its
`[0.35, 1.6]` default by this caller. -/
noncomputable def computePipeline (t : List ℝ) (x : List JsVal) (fs : ℝ)
    (params : PipeParams) (expectedCount : Option ℝ) : Except PipeErr PipeResult :=
  let y0 := sanitizeArray x
  let finiteFrac := varRatioFinite y0
  if finiteFrac < 0.95 then Except.error PipeErr.tooManyMissing
  else
    let m := mean y0
    let y1 := y0.map fun v => oSub v m
    if (y1.length : ℝ) < fs * 2 then Except.error PipeErr.tooShort
    else if fs / 2 ≤ params.hp then Except.error PipeErr.hpTooHigh
    else if fs / 2 ≤ params.lp then Except.error PipeErr.lpTooHigh
    else
      let y2 := if 0 < params.hp then butter2x y1 FilterType.highpass params.hp fs else y1
      let y3 := if 0 < params.lp ∧ params.lp < fs / 2 then butter2x y2 FilterType.lowpass params.lp fs
        else y2
      let y4 := y3.map oAbs
      let win := max 1 (jsRound (fs * params.rmsMs / 1000))
      let env := movingRMS y4 win
      match detectHS env fs
        (DetectOpts.mk expectedCount params.minBurstMs params.minGapMs params.offsetMs (0.35, 1.6)) with
      | Except.error _ => Except.error PipeErr.detectFail
      | Except.ok hsRes =>
        let envPct := percentPeak env hsRes.hs
        let cyc := normalizeCycles envPct hsRes.hs params.nPoints
        let ms := meanAndSD cyc.cycles
        Except.ok (PipeResult.mk t env envPct hsRes.hs hsRes.k hsRes.thr cyc.grid cyc.cycles
          ms.mean ms.sd)

/-- `applyHsToExistingResult` of `src/unnamed/part_002` lines 1433-1439
(identical at lines 376-382 and `src/emg/app.js` lines 647-653): re-filter
a reused event list against the target envelope length, then recompute the
percent-peak normalization, cycles and statistics on that envelope. -/
noncomputable def applyHsToExistingResult (res : PipeResult) (hs : List ℤ) (nPoints : ℕ) :
    PipeResult :=
  let hs2 := hs.filter fun i => decide (0 ≤ i ∧ i < (res.envRaw.length : ℤ))
  let envPct := percentPeak res.envRaw hs2
  let cyc := normalizeCycles envPct hs2 nPoints
  let ms := meanAndSD cyc.cycles
  PipeResult.mk res.t res.envRaw envPct hs2 res.k res.thr cyc.grid cyc.cycles ms.mean ms.sd

/-- The MAD rescue of the first `src/emg/app.js` detector (lines 367-380):
when the MAD is NaN or below `1e-12`, substitute the direct order-statistic
inter-quartile spread `(a[⌊0.75 n⌋] - a[⌊0.25 n⌋]) / 1.349` when at least
10 finite samples exist, else the constant `1e-6`. -/
noncomputable def madRescueV1 (env : List JsVal) : JsVal :=
  let md := mad env
  let a := jsSortR (env.filterMap id)
  let rescue : JsVal :=
    if 10 ≤ a.length then
      some ((a.getD (⌊(a.length : ℝ) * 0.75⌋).toNat 0 -
        a.getD (⌊(a.length : ℝ) * 0.25⌋).toNat 0) / 1.349)
    else some 1e-6
  match md with
  | some v => if v < 1e-12 then rescue else md
  | none => rescue

/-- The binarization threshold of the first `src/emg/app.js` detector
(line 463): `thr = med + k * (md * 1.4826)`, applying the MAD-to-sigma
factor 1.4826 to the full-envelope MAD (with the rescue above); the second
detector of that file applies the same factor over a baseline window (see
`detectHSMidThreshold`), while the third does not (see
`detectHSv3Threshold`). -/
noncomputable def detectHSv1Threshold (env : List JsVal) (k : ℝ) : JsVal :=
  oAdd (median env) (oMul (some k) (oMul (madRescueV1 env) (some 1.4826)))

/-- The multiplier sweep of the first `src/emg/app.js` detector (line 458):
`for (k = 2.0; k <= 6.0 + 1e-12; k += 0.25)` with 2-decimal rounding,
i.e. exactly 2.0, 2.25, ..., 6.0 (the second detector of that file, line
1415, runs the identical grid: 0.25 steps accumulate exactly, so its
slack-free `k <= 6.0` bound still includes 6.0). -/
noncomputable def kSweepValsV1 : List ℝ :=
  (List.range 17).map fun i => 2 + (i : ℝ) / 4

/-- The spec's section-4.3 threshold formula, written from the spec's words
for comparison with the detectors: `median + k * sigma` with
`sigma = 1.4826 × MAD`. -/
noncomputable def specSigmaThreshold (med madv : JsVal) (k : ℝ) : JsVal :=
  oAdd med (oMul (some k) (oMul (some 1.4826) madv))

/-- The `mad` helper of the second `src/emg/app.js` document (lines
1147-1152): the upper-middle order statistic of the comparator-sorted
array as the median (no averaging of the middle pair, no finite
filtering — stated here on an all-finite array, where the JS comparator
sort is specified), paired with the same-style median of the absolute
deviations.  On the empty array the read is out of range (`undefined`,
`none` here) and the deviation array is empty as well. -/
noncomputable def madPairMid (arr : List ℝ) : JsVal × JsVal :=
  match (jsSortR arr)[arr.length / 2]? with
  | some mv => (some mv, (jsSortR (arr.map fun v => |v - mv|))[arr.length / 2]?)
  | none => (none, none)

/-- The baseline window length of the second `src/emg/app.js` detector
(line 1409): `min(env.length, max(10, round(baselineSec * fs)))`. -/
noncomputable def midBaseLen (n : ℕ) (baselineSec fs : ℝ) : ℕ :=
  min n (max 10 (jsRound (baselineSec * fs))).toNat

/-- The sweep threshold of the second `src/emg/app.js` detector (lines
1409-1422): `thr = median + k * sigma` with `sigma = md * 1.4826`, the
median and MAD taken over the initial baseline window `env.slice(0,
baseN)` — this variant, like the first, applies the 1.4826 MAD-to-sigma
factor. -/
noncomputable def detectHSMidThreshold (env : List ℝ) (fs baselineSec k : ℝ) : JsVal :=
  let p := madPairMid (env.take (midBaseLen env.length baselineSec fs))
  oAdd p.1 (oMul (some k) (oMul p.2 (some 1.4826)))

/-- The sweep threshold of the third `src/emg/app.js` detector (lines
2003-2004): `thr = med + k * m` with `m = mad(env)` used raw — the third
document's `median`/`mad` helpers (lines 1826-1839) are textually the
part_002 ones embedded above, and this variant has no inter-quartile
rescue at all (its sweep is the 1.2..4.0 step 0.1 grid of
`kSweepVals`). -/
noncomputable def detectHSv3Threshold (env : List JsVal) (k : ℝ) : JsVal :=
  oAdd (median env) (oMul (some k) (mad env))

/-- The merge-then-offset fragment of the third `src/emg/app.js` detector
(lines 2014-2023): sort the burst onsets, merge keeping the earlier event
of any pair closer than `minGap`, then shift by `offset` and drop events
outside `[0, nMax)`.  Its only caller reaches it with a nonempty onset
list, matching the `[hs[0]]` seed. -/
def mergeThenOffsetV2 (hs : List ℤ) (minGap offset nMax : ℤ) : List ℤ :=
  let sorted := jsSortZ hs
  let merged :=
    match sorted with
    | [] => []
    | h :: t => h :: mergeKeepFirst minGap h t
  (merged.map (· + offset)).filter fun v => decide (0 ≤ v ∧ v < nMax)

/-- The `{shift, score}` record of `bestShiftMatch`; the score starts at
the sentinel `-1`, so it is an integer. -/
structure ShiftResult where
  shift : ℝ
  score : ℤ

/-- The two-pointer greedy matcher of `keepHsMatchedToVideo`
(`src/unnamed/part_002` lines 1955-1965): EMG times (tagged with their
original positions) against sorted video times, collecting the original
positions of the EMG events matched within `tol` after shifting. -/
noncomputable def twoPointer (tol shift : ℝ) : List (ℝ × ℕ) → List ℝ → List ℕ
  | [], _ => []
  | _ :: _, [] => []
  | (a, k) :: et, b :: vt =>
    let d := a + shift - b
    if |d| ≤ tol then k :: twoPointer tol shift et vt
    else if d < -tol then twoPointer tol shift et (b :: vt)
    else twoPointer tol shift ((a, k) :: et) vt
termination_by et vt => et.length + vt.length
decreasing_by
  all_goals simp only [List.length_cons]
  all_goals omega

/-- The `countMatches` closure of `bestShiftMatch` (`src/unnamed/part_002`
lines 1911-1928), kept only for its match count. -/
noncomputable def twoPointerCount (tol shift : ℝ) : List ℝ → List ℝ → ℕ
  | [], _ => 0
  | _ :: _, [] => 0
  | a :: et, b :: vt =>
    let d := a + shift - b
    if |d| ≤ tol then 1 + twoPointerCount tol shift et vt
    else if d < -tol then twoPointerCount tol shift et (b :: vt)
    else twoPointerCount tol shift (a :: et) vt
termination_by et vt => et.length + vt.length
decreasing_by
  all_goals simp only [List.length_cons]
  all_goals omega

/-- The shift grid `for (s = -rangeSec; s <= rangeSec + 1e-9; s += stepSec)`
of `bestShiftMatch` (`src/unnamed/part_002` line 1930), with the float
accumulation idealized to `-rangeSec + i * stepSec` (the `1e-9` slack
absorbs the accumulated error).  The loop never terminates for
`stepSec ≤ 0` in JS; only `stepSec = 0.01` is ever passed. -/
noncomputable def shiftList (rangeSec stepSec : ℝ) : List ℝ :=
  if stepSec ≤ 0 then []
  else (List.range (⌊(2 * rangeSec + 1e-9) / stepSec⌋ + 1).toNat).map fun i =>
    -rangeSec + (i : ℝ) * stepSec

/-- `bestShiftMatch` of `src/unnamed/part_002` lines 1902-1940: scan the
shift grid, scoring each shift by its two-pointer match count on the
sorted time lists, keeping the first strictly best shift; empty inputs
give `{shift: 0, score: -1}`. -/
noncomputable def bestShiftMatch (emgTimes videoTimes : List ℝ)
    (rangeSec stepSec tolSec : ℝ) : ShiftResult :=
  if emgTimes.length = 0 ∨ videoTimes.length = 0 then ShiftResult.mk 0 (-1)
  else
    let vt := jsSortR videoTimes
    let et := jsSortR emgTimes
    (shiftList rangeSec stepSec).foldl (fun best s =>
      let score := (twoPointerCount tolSec s et vt : ℤ)
      if best.score < score then ShiftResult.mk s score else best) (ShiftResult.mk 0 (-1))

/-- JS `tSec[i]` inside `keepHsMatchedToVideo`: its callers only pass
event indices already filtered into `[0, tSec.length)` (see
`applyOffsetAndMerge` and the `baselineSec` filter), where the total
default is never taken. -/
def jsGetTime (l : List ℝ) (i : ℤ) : ℝ :=
  if 0 ≤ i then l.getD i.toNat 0 else 0

/-- JS `array.sort((a, b) => a.v - b.v)` on `{v, k}` pairs: stable
ascending sort by the time component. -/
noncomputable def sortTimePairs (l : List (ℝ × ℕ)) : List (ℝ × ℕ) :=
  l.insertionSort fun a b => a.1 ≤ b.1

/-- The `{hsKept, shift, matched, raw, score}` record of
`keepHsMatchedToVideo`. -/
structure KeepResult where
  hsKept : List ℤ
  shift : ℝ
  matched : ℕ
  raw : ℕ
  score : ℤ

/-- `keepHsMatchedToVideo` of `src/unnamed/part_002` lines 1942-1971: find
the best time shift (10 ms grid), re-run the greedy two-pointer match at
that shift, and keep exactly the EMG events whose original position was
matched. -/
noncomputable def keepHsMatchedToVideo (hsIdx : List ℤ) (tSec : List ℝ)
    (videoEvents : List ℝ) (syncRange tolMs : ℝ) : KeepResult :=
  let tolSec := tolMs / 1000
  let emgTimes := hsIdx.map fun i => jsGetTime tSec i
  let sr := bestShiftMatch emgTimes videoEvents syncRange 0.01 tolSec
  let et := sortTimePairs (emgTimes.enum.map fun p => (p.2, p.1))
  let vt := jsSortR videoEvents
  let pairs := twoPointer tolSec sr.shift et vt
  let hsKept := (hsIdx.enum.filter fun p => decide (p.1 ∈ pairs)).map Prod.snd
  KeepResult.mk hsKept sr.shift hsKept.length hsIdx.length sr.score

/-- The reference-event selection of `run` (`src/unnamed/part_002` lines
2088-2108): with video assistance, keep the reconciled events only when at
least 4 matched, otherwise (and also without video assistance) fall back
to the every-other decimation of the unreconciled events.  `videoEvents`
arrives already filtered by `baselineSec`, as at the call site. -/
noncomputable def selectHsRef (useVideo : Bool) (hsRef : List ℤ) (t : List ℝ)
    (videoEvents : List ℝ) (syncRange tolMs fs : ℝ) (expTA : Option ℝ) : List ℤ :=
  if useVideo then
    let r := keepHsMatchedToVideo hsRef t videoEvents syncRange tolMs
    if 4 ≤ r.matched then r.hsKept
    else chooseEveryOtherIfDouble hsRef fs expTA
  else chooseEveryOtherIfDouble hsRef fs expTA

/-- The Event Index Set spacing invariant of spec section 3: consecutive
indices differ by at least `minGap` samples. -/
def MinGapSpaced (g : ℤ) (l : List ℤ) : Prop :=
  l.Chain' fun a b => a + g ≤ b

/-- Kernel-reducible check for `MinGapSpaced`. -/
def minGapSpacedB (g : ℤ) : List ℤ → Bool
  | [] => true
  | [_] => true
  | a :: b :: t => decide (a + g ≤ b) && minGapSpacedB g (b :: t)

theorem minGapSpaced_iff_b (g : ℤ) : (l : List ℤ) → (MinGapSpaced g l ↔ minGapSpacedB g l = true)
  | [] => by simp [MinGapSpaced, minGapSpacedB]
  | [a] => by simp [MinGapSpaced, minGapSpacedB]
  | a :: b :: t => by
    simp only [MinGapSpaced, List.chain'_cons, minGapSpacedB, Bool.and_eq_true,
      decide_eq_true_eq]
    exact and_congr Iff.rfl (minGapSpaced_iff_b g (b :: t))

instance (g : ℤ) (l : List ℤ) : Decidable (MinGapSpaced g l) :=
  decidable_of_iff _ (minGapSpaced_iff_b g l).symm

theorem minGapSpaced_pairwise {g : ℤ} (hg : 0 ≤ g) {l : List ℤ} (h : MinGapSpaced g l) :
    l.Pairwise fun a b => a + g ≤ b := by
  haveI : IsTrans ℤ (fun a b => a + g ≤ b) := ⟨fun a b c h1 h2 => by omega⟩
  exact List.chain'_iff_pairwise.mp h

theorem minGapSpaced_of_sublist {g : ℤ} (hg : 0 ≤ g) {l l2 : List ℤ}
    (hsub : l2.Sublist l) (h : MinGapSpaced g l) : MinGapSpaced g l2 :=
  ((minGapSpaced_pairwise hg h).sublist hsub).chain'

theorem minGapSpaced_sorted {g : ℤ} (hg : 1 ≤ g) {l : List ℤ} (h : MinGapSpaced g l) :
    l.Sorted (· < ·) :=
  (minGapSpaced_pairwise (by omega) h).imp fun hab => by omega

theorem minGapSpaced_nodup {g : ℤ} (hg : 1 ≤ g) {l : List ℤ} (h : MinGapSpaced g l) :
    l.Nodup :=
  (minGapSpaced_sorted hg h).imp fun hab => ne_of_lt hab

theorem mergeKeepFirst_chain (g : ℤ) :
    ∀ (l : List ℤ) (last : ℤ), List.Chain' (fun a b => a + g ≤ b) (last :: mergeKeepFirst g last l)
  | [], last => by simp [mergeKeepFirst]
  | v :: rest, last => by
    unfold mergeKeepFirst
    split
    · exact List.chain'_cons.mpr ⟨by omega, mergeKeepFirst_chain g rest v⟩
    · exact mergeKeepFirst_chain g rest last

theorem mergeKeepFirst_sublist (g : ℤ) :
    ∀ (l : List ℤ) (last : ℤ), (mergeKeepFirst g last l).Sublist l
  | [], _ => by simp [mergeKeepFirst]
  | v :: rest, last => by
    unfold mergeKeepFirst
    split
    · exact (mergeKeepFirst_sublist g rest v).cons₂ v
    · exact (mergeKeepFirst_sublist g rest last).cons v

theorem applyOffsetAndMerge_eq (hsRaw : List ℤ) (offset minGap nMax : ℤ) :
    applyOffsetAndMerge hsRaw offset minGap nMax =
      match jsSortZ ((hsRaw.map (· + offset)).filter fun v => decide (0 ≤ v ∧ v < nMax)) with
      | [] => []
      | h :: t => h :: mergeKeepFirst minGap h t := rfl

theorem applyOffsetAndMerge_minGapSpaced (hsRaw : List ℤ) (offset minGap nMax : ℤ) :
    MinGapSpaced minGap (applyOffsetAndMerge hsRaw offset minGap nMax) := by
  rw [applyOffsetAndMerge_eq]
  split
  · exact List.chain'_nil
  · exact mergeKeepFirst_chain minGap _ _

theorem applyOffsetAndMerge_mem {hsRaw : List ℤ} {offset minGap nMax v : ℤ}
    (hv : v ∈ applyOffsetAndMerge hsRaw offset minGap nMax) :
    v ∈ hsRaw.map (· + offset) ∧ 0 ≤ v ∧ v < nMax := by
  rw [applyOffsetAndMerge_eq] at hv
  have hv2 : v ∈ jsSortZ ((hsRaw.map (· + offset)).filter fun v => decide (0 ≤ v ∧ v < nMax)) := by
    revert hv
    split
    · intro hv; cases hv
    · rename_i h t heq
      intro hv
      rw [heq]
      rcases List.mem_cons.mp hv with h1 | h1
      · exact h1 ▸ List.mem_cons_self _ _
      · exact List.mem_cons_of_mem _ ((mergeKeepFirst_sublist minGap t h).mem h1)
  have hv3 := (List.perm_insertionSort _ _).mem_iff.mp hv2
  have hv4 := List.mem_filter.mp hv3
  exact ⟨hv4.1, by simpa using of_decide_eq_true hv4.2⟩

theorem map_fst_zip_sublist : ∀ (l1 : List ℤ) (l2 : List JsVal),
    ((l1.zip l2).map Prod.fst).Sublist l1
  | [], _ => by simp
  | _ :: _, [] => by simp
  | a :: l1, b :: l2 => by
    simpa [List.zip_cons_cons] using (map_fst_zip_sublist l1 l2).cons₂ a

theorem mergeByMinGapAux_spec (g : ℤ) :
    ∀ (l : List (ℤ × JsVal)) (lh : ℤ) (ls : JsVal),
      (l.map Prod.fst).Pairwise (· ≤ ·) → (∀ x ∈ l, lh ≤ x.1) →
      ∃ p t, mergeByMinGapAux g lh ls l = p :: t ∧ lh ≤ p.1 ∧
        List.Chain' (fun a b => a + g ≤ b) ((p :: t).map Prod.fst)
  | [], lh, ls, _, _ => ⟨(lh, ls), [], by simp [mergeByMinGapAux]⟩
  | (h, s) :: rest, lh, ls, hpw, hlb => by
    have hpw2 : (rest.map Prod.fst).Pairwise (· ≤ ·) := (List.pairwise_cons.mp hpw).2
    have hhead : ∀ x ∈ rest, h ≤ x.1 := fun x hx =>
      (List.pairwise_cons.mp hpw).1 x.1 (List.mem_map_of_mem Prod.fst hx)
    have hlh : lh ≤ h := hlb (h, s) (List.mem_cons_self _ _)
    unfold mergeByMinGapAux
    split
    · rename_i hclose
      split
      · obtain ⟨p, t, heq, hle, hch⟩ := mergeByMinGapAux_spec g rest h s hpw2 hhead
        exact ⟨p, t, heq, le_trans hlh hle, hch⟩
      · obtain ⟨p, t, heq, hle, hch⟩ := mergeByMinGapAux_spec g rest lh ls hpw2
          (fun x hx => le_trans hlh (hhead x hx))
        exact ⟨p, t, heq, hle, hch⟩
    · rename_i hfar
      obtain ⟨p, t, heq, hle, hch⟩ := mergeByMinGapAux_spec g rest h s hpw2 hhead
      refine ⟨(lh, ls), mergeByMinGapAux g h s rest, rfl, le_refl _, ?_⟩
      rw [heq]
      exact List.chain'_cons.mpr ⟨by simp at hfar ⊢; omega, hch⟩

theorem mergeByMinGap_minGapSpaced (minGap : ℤ) (hs : List ℤ) (strength : List JsVal)
    (hsort : hs.Sorted (· ≤ ·)) :
    MinGapSpaced minGap (mergeByMinGap minGap hs strength).1 := by
  match hs, hsort with
  | [], _ => exact List.chain'_nil
  | h :: ht, hsort =>
    have hcons := List.pairwise_cons.mp hsort
    have hpw : ((ht.zip (strength.drop 1)).map Prod.fst).Pairwise (· ≤ ·) :=
      hcons.2.sublist (map_fst_zip_sublist ht (strength.drop 1))
    have hlb : ∀ x ∈ ht.zip (strength.drop 1), h ≤ x.1 := fun x hx =>
      hcons.1 x.1 ((map_fst_zip_sublist ht (strength.drop 1)).mem
        (List.mem_map_of_mem Prod.fst hx))
    obtain ⟨p, t, heq, _, hch⟩ :=
      mergeByMinGapAux_spec minGap (ht.zip (strength.drop 1)) h (strength.headD none) hpw hlb
    show MinGapSpaced minGap
      ((mergeByMinGapAux minGap h (strength.headD none) (ht.zip (strength.drop 1))).map Prod.fst)
    rw [heq]
    exact hch

theorem everyOtherEven_sublist (l : List ℤ) : (everyOtherEven l).Sublist l := by
  have h1 : (l.enum.filter fun p => decide (p.1 % 2 = 0)).Sublist l.enum :=
    List.filter_sublist _
  simpa [everyOtherEven, List.enum_map_snd] using h1.map Prod.snd

theorem everyOtherOdd_sublist (l : List ℤ) : (everyOtherOdd l).Sublist l := by
  have h1 : (l.enum.filter fun p => decide (p.1 % 2 = 1)).Sublist l.enum :=
    List.filter_sublist _
  simpa [everyOtherOdd, List.enum_map_snd] using h1.map Prod.snd

theorem chooseEveryOtherIfDouble_sublist (hs : List ℤ) (fs : ℝ) (e : Option ℝ) :
    (chooseEveryOtherIfDouble hs fs e).Sublist hs := by
  simp only [chooseEveryOtherIfDouble]
  split
  · exact List.Sublist.refl hs
  · split
    · split
      · exact everyOtherEven_sublist hs
      · exact everyOtherOdd_sublist hs
    · exact List.Sublist.refl hs

/-- C1 (amended): every offset-and-merged event list is `minGap`-spaced
with non-strict spacing `hs[i] + minGap ≤ hs[i+1]` (hence, for
`minGap ≥ 1`, strictly ascending and duplicate-free); the strength-aware
merge of `src/emg/app.js` establishes the same invariant from any sorted
input; and the every-other decimation step preserves it. -/
theorem claim1_min_gap_invariant :
    (∀ (hsRaw : List ℤ) (offset minGap nMax : ℤ), 1 ≤ minGap →
      MinGapSpaced minGap (applyOffsetAndMerge hsRaw offset minGap nMax) ∧
      (applyOffsetAndMerge hsRaw offset minGap nMax).Sorted (· < ·) ∧
      (applyOffsetAndMerge hsRaw offset minGap nMax).Nodup) ∧
    (∀ (minGap : ℤ) (hs : List ℤ) (strength : List JsVal), 1 ≤ minGap →
      hs.Sorted (· ≤ ·) →
      MinGapSpaced minGap (mergeByMinGap minGap hs strength).1 ∧
      (mergeByMinGap minGap hs strength).1.Sorted (· < ·) ∧
      (mergeByMinGap minGap hs strength).1.Nodup) ∧
    (∀ (minGap : ℤ) (hs : List ℤ) (fs : ℝ) (e : Option ℝ), 0 ≤ minGap →
      MinGapSpaced minGap hs →
      MinGapSpaced minGap (chooseEveryOtherIfDouble hs fs e)) := by
  refine ⟨fun hsRaw offset minGap nMax hg => ?_, fun minGap hs strength hg hsort => ?_,
    fun minGap hs fs e hg h => ?_⟩
  · have h := applyOffsetAndMerge_minGapSpaced hsRaw offset minGap nMax
    exact ⟨h, minGapSpaced_sorted hg h, minGapSpaced_nodup hg h⟩
  · have h := mergeByMinGap_minGapSpaced minGap hs strength hsort
    exact ⟨h, minGapSpaced_sorted hg h, minGapSpaced_nodup hg h⟩
  · exact minGapSpaced_of_sublist hg (chooseEveryOtherIfDouble_sublist hs fs e) h

/-- C1 (counterexample to the strict reading): the merge step accepts a
gap exactly equal to `minGap` (its test is `hs[i] - last >= minGap`), so
the spec's strict bound `hs[i] < hs[i+1] - minGap` fails on the produced
pair `[0, 2]` with `minGap = 2`. -/
theorem claim1_strict_gap_counterexample :
    applyOffsetAndMerge [0, 2] 0 2 10 = [0, 2] ∧ ¬ ((0 : ℤ) < 2 - 2) := by
  refine ⟨by decide, by decide⟩

/-- C1 (witness): the amended invariant instantiated on concrete inputs
satisfying every hypothesis. -/
theorem claim1_min_gap_invariant_witness :
    ((1 : ℤ) ≤ 2 ∧
      MinGapSpaced 2 (applyOffsetAndMerge [0, 3, 4] 1 2 100)) ∧
    (([0, 1, 5] : List ℤ).Sorted (· ≤ ·) ∧
      MinGapSpaced 2 (mergeByMinGap 2 [0, 1, 5] [some 1, some 3, some 2]).1) ∧
    (MinGapSpaced 2 [0, 2, 4, 6, 8, 10] ∧
      MinGapSpaced 2 (chooseEveryOtherIfDouble [0, 2, 4, 6, 8, 10] 1 none)) :=
  ⟨⟨by decide, (claim1_min_gap_invariant.1 [0, 3, 4] 1 2 100 (by decide)).1⟩,
   ⟨by decide, (claim1_min_gap_invariant.2.1 2 [0, 1, 5] [some 1, some 3, some 2]
      (by decide) (by decide)).1⟩,
   ⟨by decide, claim1_min_gap_invariant.2.2 2 [0, 2, 4, 6, 8, 10] 1 none
      (by decide) (by decide)⟩⟩

/-- C3 (amended): only `mergeByMinGap` of `src/emg/app.js` keeps the
stronger event of a close pair (the later one exactly when it is strictly
stronger); `applyOffsetAndMerge` of `src/unnamed/part_002` keeps the
earlier event of a close pair unconditionally, with no amplitude
comparison at all. -/
theorem claim3_merge_tie_breaking :
    (∀ (minGap a b : ℤ) (sa sb : JsVal), b - a < minGap →
      mergeByMinGap minGap [a, b] [sa, sb] =
        if fgt sb sa then ([b], [sb]) else ([a], [sa])) ∧
    (∀ (minGap offset nMax a b : ℤ), a ≤ b → b - a < minGap →
      0 ≤ a + offset → 0 ≤ b + offset → a + offset < nMax → b + offset < nMax →
      applyOffsetAndMerge [a, b] offset minGap nMax = [a + offset]) := by
  constructor
  · intro minGap a b sa sb hclose
    by_cases hf : fgt sb sa <;>
      simp [mergeByMinGap, mergeByMinGapAux, hclose, hf]
  · intro minGap offset nMax a b hab hclose ha0 hb0 haN hbN
    have h1 : (([a, b].map (· + offset)).filter fun v => decide (0 ≤ v ∧ v < nMax)) =
        [a + offset, b + offset] := by
      simp [List.filter, ha0, hb0, haN, hbN]
    have h2 : jsSortZ [a + offset, b + offset] = [a + offset, b + offset] :=
      List.Sorted.insertionSort_eq (by
        simp [List.Sorted, List.pairwise_cons]
        omega)
    rw [applyOffsetAndMerge_eq, h1, h2]
    simp only [mergeKeepFirst]
    rw [if_neg (by omega)]

/-- C3 (counterexample): with envelope amplitudes `env[0] = 1 < 2 = env[1]`
and raw events 0 and 1 closer than `minGap = 5`, `applyOffsetAndMerge`
keeps event 0 and discards event 1 — the *stronger* event is the one
discarded, contradicting the claim that the merge keeps the
higher-amplitude event of the pair. -/
theorem claim3_counterexample :
    applyOffsetAndMerge [0, 1] 0 5 10 = [0] ∧
    applyOffsetAndMerge [0, 1] 0 5 10 ≠ [1] ∧
    fgt (jsGetZ [some 1, some 2] 1) (jsGetZ [some 1, some 2] 0) := by
  refine ⟨by decide, by decide, ?_⟩
  show fgt (some 2) (some 1)
  simp only [fgt_some_some]
  norm_num

/-- C3 (witness): the amended pair-merge behaviour instantiated on
concrete inputs satisfying every hypothesis. -/
theorem claim3_merge_tie_breaking_witness :
    ((1 : ℤ) - 0 < 5 ∧
      mergeByMinGap 5 [0, 1] [some 1, some 2] =
        if fgt (some 2) (some 1) then ([1], [some 2]) else ([0], [some 1])) ∧
    ((0 : ℤ) ≤ 1 ∧ (1 : ℤ) - 0 < 5 ∧
      applyOffsetAndMerge [0, 1] 3 5 10 = [0 + 3]) :=
  ⟨⟨by decide, claim3_merge_tie_breaking.1 5 0 1 (some 1) (some 2) (by decide)⟩,
   ⟨by decide, by decide, claim3_merge_tie_breaking.2 5 3 10 0 1 (by decide) (by decide)
      (by decide) (by decide) (by decide) (by decide)⟩⟩

/-- C10: every event index surviving the offset-and-merge steps lies in
`[0, envelope length)` and is a genuinely shifted raw event (dropped, not
clamped, when out of range) — for `applyOffsetAndMerge`
(`src/unnamed/part_002`), for the merge-then-offset fragment of the second
`src/emg/app.js` detector, and for the re-filtering of reused event lists
in `applyHsToExistingResult`. -/
theorem claim10_events_in_range :
    (∀ (hsRaw : List ℤ) (offset minGap nMax : ℤ),
      ∀ v ∈ applyOffsetAndMerge hsRaw offset minGap nMax,
        (0 ≤ v ∧ v < nMax) ∧ v ∈ hsRaw.map (· + offset)) ∧
    (∀ (hs : List ℤ) (minGap offset nMax : ℤ),
      ∀ v ∈ mergeThenOffsetV2 hs minGap offset nMax,
        (0 ≤ v ∧ v < nMax) ∧ v ∈ hs.map (· + offset)) ∧
    (∀ (res : PipeResult) (hs : List ℤ) (nPoints : ℕ),
      ∀ i ∈ (applyHsToExistingResult res hs nPoints).hs,
        (0 ≤ i ∧ i < (res.envRaw.length : ℤ)) ∧ i ∈ hs) := by
  refine ⟨fun hsRaw offset minGap nMax v hv => ?_, fun hs minGap offset nMax v hv => ?_,
    fun res hs nPoints i hi => ?_⟩
  · have h := applyOffsetAndMerge_mem hv
    exact ⟨⟨h.2.1, h.2.2⟩, h.1⟩
  · simp only [mergeThenOffsetV2] at hv
    have h1 := List.mem_filter.mp hv
    have hrange := of_decide_eq_true h1.2
    rcases List.mem_map.mp h1.1 with ⟨w, hw, rfl⟩
    have hw2 : w ∈ jsSortZ hs := by
      revert hw
      rcases heq : jsSortZ hs with _ | ⟨h, t⟩
      · intro hw; cases hw
      · intro hw
        rcases List.mem_cons.mp hw with h1 | h1
        · exact h1 ▸ List.mem_cons_self _ _
        · exact List.mem_cons_of_mem _ ((mergeKeepFirst_sublist minGap t h).mem h1)
    have hw3 := (List.perm_insertionSort _ _).mem_iff.mp hw2
    exact ⟨hrange, List.mem_map_of_mem _ hw3⟩
  · have hi2 : i ∈ hs.filter fun i => decide (0 ≤ i ∧ i < (res.envRaw.length : ℤ)) := hi
    have h1 := List.mem_filter.mp hi2
    exact ⟨of_decide_eq_true h1.2, h1.1⟩

/-- C10 (witness): the range property instantiated on concrete inputs
where the membership hypotheses hold. -/
theorem claim10_events_in_range_witness :
    ((7 : ℤ) ∈ applyOffsetAndMerge [5, 12] 2 3 10 ∧
      (0 ≤ (7 : ℤ) ∧ (7 : ℤ) < 10) ∧ (7 : ℤ) ∈ ([5, 12].map (· + 2))) ∧
    ((6 : ℤ) ∈ mergeThenOffsetV2 [4, 5] 3 2 10 ∧
      (0 ≤ (6 : ℤ) ∧ (6 : ℤ) < 10) ∧ (6 : ℤ) ∈ ([4, 5].map (· + 2))) :=
  ⟨⟨by decide, (claim10_events_in_range.1 [5, 12] 2 3 10 7 (by decide)).1,
      (claim10_events_in_range.1 [5, 12] 2 3 10 7 (by decide)).2⟩,
   ⟨by decide, (claim10_events_in_range.2.1 [4, 5] 3 2 10 6 (by decide)).1,
      (claim10_events_in_range.2.1 [4, 5] 3 2 10 6 (by decide)).2⟩⟩

/-- The finite contributions at grid point `j` of a Cycle Set: the
spec-side notion against which `meanAndSD` is checked. -/
def finiteAt (cycles : List (List JsVal)) (j : ℕ) : List ℝ :=
  (cycles.map fun c => jsGet c j).filterMap id

/-- Population variance (divisor `n`) about the list mean. -/
noncomputable def popVariance (vals : List ℝ) : ℝ :=
  (vals.map fun v =>
    (v - vals.sum / (vals.length : ℝ)) * (v - vals.sum / (vals.length : ℝ))).sum /
    (vals.length : ℝ)

/-- Population standard deviation (divisor `n`). -/
noncomputable def popSD (vals : List ℝ) : ℝ := Real.sqrt (popVariance vals)

/-- Sample standard deviation (divisor `n - 1`), the statistic the spec
names. -/
noncomputable def sampleSD (vals : List ℝ) : ℝ :=
  Real.sqrt ((vals.map fun v =>
    (v - vals.sum / (vals.length : ℝ)) * (v - vals.sum / (vals.length : ℝ))).sum /
    ((vals.length : ℝ) - 1))

theorem finiteAt_cons (c : List JsVal) (cycles : List (List JsVal)) (j : ℕ) :
    finiteAt (c :: cycles) j =
      match jsGet c j with
      | some v => v :: finiteAt cycles j
      | none => finiteAt cycles j := by
  rcases h : jsGet c j with _ | v <;> simp [finiteAt, List.filterMap_cons, h]

theorem meanFold_eq (j : ℕ) : ∀ (cycles : List (List JsVal)) (s0 : ℝ) (c0 : ℕ),
    cycles.foldl (fun sc c =>
      match jsGet c j with
      | some v => (sc.1 + v, sc.2 + 1)
      | none => sc) (s0, c0) =
    (s0 + (finiteAt cycles j).sum, c0 + (finiteAt cycles j).length)
  | [], s0, c0 => by simp [finiteAt]
  | c :: cycles, s0, c0 => by
    rcases h : jsGet c j with _ | v
    · simpa [finiteAt_cons, h] using meanFold_eq j cycles s0 c0
    · have ih := meanFold_eq j cycles (s0 + v) (c0 + 1)
      simp only [List.foldl_cons, h, ih, finiteAt_cons, List.sum_cons, List.length_cons]
      exact Prod.ext (by ring) (by omega)

theorem sdFold_eq (j : ℕ) (μ : ℝ) : ∀ (cycles : List (List JsVal)) (s0 : ℝ) (c0 : ℕ),
    cycles.foldl (fun sc c =>
      match jsGet c j with
      | some v => (oAdd sc.1 (oMul (oSub (some v) (some μ)) (oSub (some v) (some μ))), sc.2 + 1)
      | none => sc) ((some s0 : JsVal), c0) =
    (some (s0 + ((finiteAt cycles j).map fun v => (v - μ) * (v - μ)).sum),
      c0 + (finiteAt cycles j).length)
  | [], s0, c0 => by simp [finiteAt]
  | c :: cycles, s0, c0 => by
    rcases h : jsGet c j with _ | v
    · simpa [finiteAt_cons, h] using sdFold_eq j μ cycles s0 c0
    · have ih := sdFold_eq j μ cycles (s0 + (v - μ) * (v - μ)) (c0 + 1)
      have hinit : oAdd (some s0) (oMul (oSub (some v) (some μ)) (oSub (some v) (some μ))) =
          some (s0 + (v - μ) * (v - μ)) := by simp
      simp only [List.foldl_cons, h]
      rw [hinit, ih]
      simp only [finiteAt_cons, h, List.map_cons, List.sum_cons, List.length_cons]
      exact Prod.ext (by simp; ring) (by omega)

theorem sdFold_of_empty (j : ℕ) (mj : JsVal) :
    ∀ (cycles : List (List JsVal)) (acc : JsVal × ℕ), finiteAt cycles j = [] →
    cycles.foldl (fun sc c =>
      match jsGet c j with
      | some v => (oAdd sc.1 (oMul (oSub (some v) mj) (oSub (some v) mj)), sc.2 + 1)
      | none => sc) acc = acc
  | [], acc, _ => rfl
  | c :: cycles, acc, hemp => by
    rcases h : jsGet c j with _ | v
    · simp only [finiteAt_cons, h] at hemp
      simp only [List.foldl_cons, h]
      exact sdFold_of_empty j mj cycles acc hemp
    · simp only [finiteAt_cons, h] at hemp
      cases hemp

theorem meanColAt_eq (cycles : List (List JsVal)) (j : ℕ) :
    meanColAt cycles j =
      if 0 < (finiteAt cycles j).length
      then some ((finiteAt cycles j).sum / ((finiteAt cycles j).length : ℝ))
      else none := by
  unfold meanColAt
  rw [meanFold_eq]
  simp

theorem sdColAt_some_eq (cycles : List (List JsVal)) (j : ℕ) (μ : ℝ) :
    sdColAt cycles (some μ) j =
      if 1 < (finiteAt cycles j).length
      then some (Real.sqrt ((((finiteAt cycles j).map fun v => (v - μ) * (v - μ)).sum) /
        ((finiteAt cycles j).length : ℝ)))
      else none := by
  simp only [sdColAt]
  rw [sdFold_eq]
  simp only [Nat.zero_add]
  split <;> rename_i hc <;> simp [oSqrt, oDiv, oBin, hc]

theorem jsGet_range_map (m j : ℕ) (f : ℕ → JsVal) (hj : j < m) :
    jsGet ((List.range m).map f) j = f j := by
  simp [jsGet, List.getD_eq_getElem?_getD, List.getElem?_map, List.getElem?_range hj]

theorem meanAndSD_mean_at (cycles : List (List JsVal)) (hne : cycles ≠ []) {j : ℕ}
    (hj : j < (cycles.headD []).length) :
    jsGet (meanAndSD cycles).mean j = meanColAt cycles j := by
  unfold meanAndSD
  rw [if_neg (by simpa [List.length_eq_zero] using hne)]
  exact jsGet_range_map _ _ _ hj

theorem meanAndSD_sd_at (cycles : List (List JsVal)) (hne : cycles ≠ []) {j : ℕ}
    (hj : j < (cycles.headD []).length) :
    jsGet (meanAndSD cycles).sd j = sdColAt cycles (meanColAt cycles j) j := by
  unfold meanAndSD
  rw [if_neg (by simpa [List.length_eq_zero] using hne)]
  show jsGet ((List.range _).map _) j = _
  rw [jsGet_range_map _ _ _ hj, jsGet_range_map _ _ _ hj]

/-- C4 (amended): at every grid point of a Cycle Set, the aggregated mean
is NaN iff no finite contribution exists, the aggregated SD is NaN iff
fewer than 2 finite contributions exist, non-finite contributions are
excluded from both statistics (the mean is the sum of the finite
contributions over their own count), and where defined the SD equals the
*population* standard deviation (divisor `n`, the finite-contribution
count) — not the sample standard deviation (divisor `n - 1`) of the
spec. -/
theorem claim4_cycle_statistics :
    ∀ (cycles : List (List JsVal)) (j : ℕ), cycles ≠ [] → j < (cycles.headD []).length →
      (jsGet (meanAndSD cycles).mean j = none ↔ finiteAt cycles j = []) ∧
      (jsGet (meanAndSD cycles).sd j = none ↔ (finiteAt cycles j).length < 2) ∧
      (1 ≤ (finiteAt cycles j).length →
        jsGet (meanAndSD cycles).mean j =
          some ((finiteAt cycles j).sum / ((finiteAt cycles j).length : ℝ))) ∧
      (2 ≤ (finiteAt cycles j).length →
        jsGet (meanAndSD cycles).sd j = some (popSD (finiteAt cycles j))) := by
  intro cycles j hne hj
  have hm := meanAndSD_mean_at cycles hne hj
  have hsd := meanAndSD_sd_at cycles hne hj
  by_cases h0 : 0 < (finiteAt cycles j).length
  · have hmv : meanColAt cycles j =
        some ((finiteAt cycles j).sum / ((finiteAt cycles j).length : ℝ)) := by
      rw [meanColAt_eq, if_pos h0]
    have hsv := sdColAt_some_eq cycles j ((finiteAt cycles j).sum / ((finiteAt cycles j).length : ℝ))
    refine ⟨?_, ?_, fun _ => by rw [hm, hmv], fun h2 => ?_⟩
    · rw [hm, hmv]
      simp only [Option.some_ne_none _, false_iff]
      intro he
      rw [he] at h0
      simp at h0
    · rw [hsd, hmv, hsv]
      by_cases h1 : 1 < (finiteAt cycles j).length
      · rw [if_pos h1]
        simp only [Option.some_ne_none _, false_iff]
        omega
      · rw [if_neg h1]
        simp only [true_iff]
        omega
    · rw [hsd, hmv, hsv, if_pos (by omega)]
      simp [popSD, popVariance]
  · have hemp : finiteAt cycles j = [] := List.length_eq_zero.mp (by omega)
    have hmv : meanColAt cycles j = none := by
      rw [meanColAt_eq, if_neg h0]
    have hsv : sdColAt cycles none j = none := by
      simp only [sdColAt]
      rw [sdFold_of_empty j none cycles _ hemp]
      simp
    refine ⟨?_, ?_, fun h1 => by omega, fun h2 => by rw [hemp] at h2; simp at h2⟩
    · rw [hm, hmv]
      simp [hemp]
    · rw [hsd, hmv, hsv]
      simp only [true_iff]
      omega

/-- C4 (counterexample to the sample-SD reading): for the two
single-point cycles `[0]` and `[2]`, the code's SD is
`sqrt(((0-1)² + (2-1)²) / 2) = 1`, while the sample standard deviation
(divisor `n - 1`) of the same contributions is `sqrt 2 ≠ 1`. -/
theorem claim4_counterexample :
    jsGet (meanAndSD [[some 0], [some 2]]).sd 0 = some 1 ∧
    sampleSD (finiteAt [[some 0], [some 2]] 0) = Real.sqrt 2 ∧
    (1 : ℝ) ≠ Real.sqrt 2 := by
  have hfin : finiteAt [[some 0], [some 2]] 0 = [0, 2] := by
    simp [finiteAt, jsGet]
  have hne : ([[some 0], [some 2]] : List (List JsVal)) ≠ [] := by simp
  have hj : 0 < (([[some 0], [some 2]] : List (List JsVal)).headD []).length := by simp
  have hne1 : (1 : ℝ) ≠ Real.sqrt 2 := by
    have h := Real.sqrt_lt_sqrt (by norm_num : (0 : ℝ) ≤ 1) (by norm_num : (1 : ℝ) < 2)
    rw [Real.sqrt_one] at h
    exact ne_of_lt h
  refine ⟨?_, ?_, hne1⟩
  · have hsd := meanAndSD_sd_at ([[some 0], [some 2]] : List (List JsVal)) hne hj
    have hmv : meanColAt [[some 0], [some 2]] 0 = some 1 := by
      rw [meanColAt_eq, hfin, if_pos (by norm_num)]
      norm_num
    have hsv := sdColAt_some_eq ([[some 0], [some 2]] : List (List JsVal)) 0 1
    rw [hsd, hmv, hsv, hfin, if_pos (by norm_num)]
    have : (((([0, 2] : List ℝ)).map fun v => (v - 1) * (v - 1)).sum) / (([0, 2] : List ℝ).length : ℝ) = 1 := by
      norm_num
    rw [this, Real.sqrt_one]
  · rw [hfin]
    simp only [sampleSD]
    norm_num

/-- C4 (witness): the amended aggregation contract instantiated on the
concrete Cycle Set `[[0], [2]]` at grid point 0, where every hypothesis
holds. -/
theorem claim4_cycle_statistics_witness :
    (([[some 0], [some 2]] : List (List JsVal)) ≠ [] ∧
      0 < (([[some 0], [some 2]] : List (List JsVal)).headD []).length ∧
      2 ≤ (finiteAt [[some 0], [some 2]] 0).length) ∧
    (jsGet (meanAndSD [[some 0], [some 2]]).mean 0 = none ↔
      finiteAt [[some 0], [some 2]] 0 = []) ∧
    jsGet (meanAndSD [[some 0], [some 2]]).sd 0 = some (popSD (finiteAt [[some 0], [some 2]] 0)) :=
  ⟨⟨by simp, by simp, by simp [finiteAt, jsGet]⟩,
   (claim4_cycle_statistics [[some 0], [some 2]] 0 (by simp) (by simp)).1,
   (claim4_cycle_statistics [[some 0], [some 2]] 0 (by simp) (by simp)).2.2.2
     (by simp [finiteAt, jsGet])⟩

/-- The closed-interval maximum `max over [s, e]` named by the spec's
percent-peak bound (section 8 reads `max(envPct over [hs[0], hs[last]])`
with an inclusive interval). -/
noncomputable def windowMaxIncl (env : List JsVal) (s e : ℤ) : JsVal :=
  foldMax ((rangeZ s (e + 1)).map fun i => jsGetZ env i)

/-- The spec's reference: the maximum envelope value *strictly between*
the first and last retained event, i.e. over the open window `(s, e)`. -/
noncomputable def strictBetweenMax (env : List JsVal) (s e : ℤ) : JsVal :=
  foldMax ((rangeZ (s + 1) e).map fun i => jsGetZ env i)

theorem jsGetZ_map (f : ℝ → ℝ) (env : List JsVal) (i : ℤ) :
    jsGetZ (env.map (Option.map f)) i = (jsGetZ env i).map f := by
  unfold jsGetZ
  split
  · simp [List.getD_eq_getElem?_getD, List.getElem?_map]
    rcases env[i.toNat]? with _ | v <;> simp
  · rfl

theorem foldMax_foldl_map_mono (f : ℝ → ℝ) (hf : StrictMono f) :
    ∀ (l : List JsVal) (acc : JsVal),
      (l.map (Option.map f)).foldl maxStep (acc.map f) = (l.foldl maxStep acc).map f
  | [], acc => rfl
  | v :: l, acc => by
    have hstep : maxStep (acc.map f) (v.map f) = (maxStep acc v).map f := by
      rcases v with _ | x
      · rfl
      · rcases acc with _ | m
        · rfl
        · by_cases hlt : m < x
          · simp [maxStep, hlt, hf hlt]
          · have hflt : ¬ f m < f x := fun h => hlt (hf.lt_iff_lt.mp h)
            simp [maxStep, hlt, hflt]
    rw [List.map_cons, List.foldl_cons, List.foldl_cons, hstep,
      foldMax_foldl_map_mono f hf l (maxStep acc v)]

theorem foldMax_map_mono (f : ℝ → ℝ) (hf : StrictMono f) (l : List JsVal) :
    foldMax (l.map (Option.map f)) = (foldMax l).map f := by
  unfold foldMax
  exact foldMax_foldl_map_mono f hf l none

/-- C5 (amended): when at least 2 events are retained and the code's
reference — the running maximum over the *half-open* window
`[hs[0], hs[last])`, which includes the first event sample and excludes
the last — is a positive finite value, the maximum of the normalized
envelope over that same half-open window is exactly 100; whenever the
reference is non-finite or non-positive the output is all-NaN, with no
exception raised. -/
theorem claim5_percent_peak :
    (∀ (env : List JsVal) (hs : List ℤ) (r : ℝ), 2 ≤ hs.length →
      percentPeakRef env hs = some r → 0 < r →
      foldMax ((rangeZ (hs.headD 0) (hs.getLastD 0)).map fun i =>
        jsGetZ (percentPeak env hs) i) = some 100) ∧
    (∀ (env : List JsVal) (hs : List ℤ), percentPeakRef env hs = none →
      percentPeak env hs = List.replicate env.length none) ∧
    (∀ (env : List JsVal) (hs : List ℤ) (r : ℝ), percentPeakRef env hs = some r → r ≤ 0 →
      percentPeak env hs = List.replicate env.length none) := by
  refine ⟨fun env hs r h2 href hr => ?_, fun env hs href => ?_, fun env hs r href hr => ?_⟩
  · have hrefeq : foldMax ((rangeZ (hs.headD 0) (hs.getLastD 0)).map fun i =>
        jsGetZ env i) = some r := by
      unfold percentPeakRef at href
      rwa [if_pos h2] at href
    have hpp : percentPeak env hs = env.map (Option.map fun x => x / r * 100) := by
      unfold percentPeak
      rw [href]
      show (if r ≤ 0 then List.replicate env.length none
        else env.map fun v => Option.map (fun x => x / r * 100) v) = _
      rw [if_neg (not_le.mpr hr)]
    have hmono : StrictMono fun x : ℝ => x / r * 100 := fun a b hab => by
      have h1 : a / r < b / r := div_lt_div_of_pos_right hab hr
      exact mul_lt_mul_of_pos_right h1 (by norm_num)
    rw [hpp]
    have hwin : ((rangeZ (hs.headD 0) (hs.getLastD 0)).map fun i =>
        jsGetZ (env.map (Option.map fun x => x / r * 100)) i) =
        ((rangeZ (hs.headD 0) (hs.getLastD 0)).map fun i => jsGetZ env i).map
          (Option.map fun x => x / r * 100) := by
      rw [List.map_map]
      exact List.map_congr_left fun i _ => jsGetZ_map _ env i
    rw [hwin, foldMax_map_mono _ hmono, hrefeq]
    show some (r / r * 100) = some 100
    rw [div_self (ne_of_gt hr)]
    norm_num
  · unfold percentPeak
    rw [href]
  · unfold percentPeak
    rw [href]
    show (if r ≤ 0 then List.replicate env.length none
      else env.map fun v => Option.map (fun x => x / r * 100) v) = _
    rw [if_pos hr]

theorem percentPeak_example_ref : percentPeakRef [some 1, some 2, some 5] [0, 2] = some 2 := by
  have hrange : rangeZ 0 2 = [0, 1] := by decide
  unfold percentPeakRef
  rw [if_pos (by decide)]
  show foldMax ((rangeZ 0 2).map fun i => jsGetZ [some 1, some 2, some 5] i) = some 2
  rw [hrange]
  norm_num [foldMax, maxStep, jsGetZ, List.foldl]

theorem percentPeak_example_out :
    percentPeak [some 1, some 2, some 5] [0, 2] = [some 50, some 100, some 250] := by
  unfold percentPeak
  rw [percentPeak_example_ref]
  show (if (2 : ℝ) ≤ 0 then List.replicate ([some 1, some 2, some 5] : List JsVal).length none
    else ([some 1, some 2, some 5] : List JsVal).map fun v =>
      Option.map (fun x => x / 2 * 100) v) = _
  rw [if_neg (by norm_num)]
  norm_num

/-- C5 (counterexample): on the finite envelope `[1, 2, 5]` with retained
events `[0, 2]`, the spec's reference (max strictly between the events) is
`2 > 0`, yet the maximum of the normalized envelope over the *inclusive*
window `[hs[0], hs[last]]` is 250, not 100 — the code's reference excludes
the last event sample, so the claimed bound fails on the closed
interval. -/
theorem claim5_counterexample :
    strictBetweenMax [some 1, some 2, some 5] 0 2 = some 2 ∧
    windowMaxIncl (percentPeak [some 1, some 2, some 5] [0, 2]) 0 2 = some 250 ∧
    (some 250 : JsVal) ≠ some 100 := by
  refine ⟨?_, ?_, by intro h; rw [Option.some_inj] at h; norm_num at h⟩
  · unfold strictBetweenMax
    have hrange : rangeZ (0 + 1) 2 = [1] := by decide
    rw [hrange]
    norm_num [foldMax, maxStep, jsGetZ, List.foldl]
  · rw [percentPeak_example_out]
    unfold windowMaxIncl
    have hrange : rangeZ 0 (2 + 1) = [0, 1, 2] := by decide
    rw [hrange]
    norm_num [foldMax, maxStep, jsGetZ, List.foldl, show Int.toNat 2 = 2 from rfl,
      show Int.toNat 1 = 1 from rfl, show Int.toNat 0 = 0 from rfl]

/-- C5 (witness): the amended percent-peak bound instantiated on the
envelope `[1, 2, 5]` with events `[0, 2]`, whose half-open-window
reference is `2 > 0`. -/
theorem claim5_percent_peak_witness :
    (2 ≤ ([0, 2] : List ℤ).length ∧
      percentPeakRef [some 1, some 2, some 5] [0, 2] = some 2 ∧ (0 : ℝ) < 2) ∧
    foldMax ((rangeZ (([0, 2] : List ℤ).headD 0) (([0, 2] : List ℤ).getLastD 0)).map fun i =>
      jsGetZ (percentPeak [some 1, some 2, some 5] [0, 2]) i) = some 100 :=
  ⟨⟨by decide, percentPeak_example_ref, by norm_num⟩,
   claim5_percent_peak.1 [some 1, some 2, some 5] [0, 2] 2 (by decide)
     percentPeak_example_ref (by norm_num)⟩

theorem madCandidate_elim (env : List JsVal) (med m : JsVal) (mb mg off : ℤ) (k : ℝ)
    {thr : JsVal} {hs : List ℤ}
    (h : madCandidate env med m mb mg off k = some (thr, hs)) :
    thr = oAdd med (oMul (some k) m) ∧
    hs = applyOffsetAndMerge
      (((risingEdges (env.map fun v => decide (fgt v (oAdd med (oMul (some k) m))))).filter
        fun se => decide (mb ≤ (se.2 : ℤ) - (se.1 : ℤ))).map fun se => ((se.1 : ℕ) : ℤ))
      off mg (env.length : ℤ) ∧
    2 ≤ hs.length := by
  simp only [madCandidate] at h
  split at h
  · cases h
  · split at h
    · cases h
    · rename_i hlen
      rcases h with ⟨rfl, rfl⟩
      exact ⟨rfl, rfl, by omega⟩

/-- Fold invariant for the multiplier sweep: any post-condition `Q` that
holds of every candidate the step can insert holds of whatever the sweep
returns. -/
theorem sweepStep_foldl_inv (env : List JsVal) (fs : ℝ) (o : DetectOpts) (med m : JsVal)
    (mb mg off : ℤ) (Q : HSBest → Prop)
    (hQ : ∀ (k : ℝ) (thr : JsVal) (hs : List ℤ),
      madCandidate env med m mb mg off k = some (thr, hs) →
      Q (HSBest.mk (KTag.num k) thr hs (scoreHS hs fs o.plausibleStep o.expectedCount))) :
    ∀ (ks : List ℝ) (b0 : Option HSBest), (∀ c, b0 = some c → Q c) →
      ∀ c, ks.foldl (sweepStep env fs o med m mb mg off) b0 = some c → Q c
  | [], b0, hb0, c, hc => hb0 c hc
  | k :: ks, b0, hb0, c, hc => by
    rw [List.foldl_cons] at hc
    refine sweepStep_foldl_inv env fs o med m mb mg off Q hQ ks _ ?_ c hc
    intro c2 hc2
    unfold sweepStep at hc2
    rcases hmc : madCandidate env med m mb mg off k with _ | ⟨thr, hs⟩
    · rw [hmc] at hc2
      exact hb0 c2 hc2
    · rw [hmc] at hc2
      simp only [] at hc2
      rcases b0 with _ | b
      · rcases hc2 with ⟨rfl⟩
        exact hQ k thr hs hmc
      · simp only [] at hc2
        by_cases hlt : scLt (scoreHS hs fs o.plausibleStep o.expectedCount) b.score
        · rw [if_pos hlt] at hc2
          rcases hc2 with ⟨rfl⟩
          exact hQ k thr hs hmc
        · rw [if_neg hlt] at hc2
          exact hb0 c2 hc2

theorem detectHS_sweep_result (env : List JsVal) (fs : ℝ) (o : DetectOpts) (Q : HSBest → Prop)
    (hQ : ∀ (k : ℝ) (thr : JsVal) (hs : List ℤ),
      madCandidate env (median env) (detectSigma env) (jsRound (fs * o.minBurstMs / 1000))
        (jsRound (fs * o.minGapMs / 1000)) (jsRound (fs * o.offsetMs / 1000)) k =
        some (thr, hs) →
      Q (HSBest.mk (KTag.num k) thr hs (scoreHS hs fs o.plausibleStep o.expectedCount)))
    (hfb : ∀ b, detectHSPeakFallback env fs o (jsRound (fs * o.minGapMs / 1000))
      (jsRound (fs * o.offsetMs / 1000)) = Except.ok b → Q b) :
    ∀ b, detectHS env fs o = Except.ok b → Q b := by
  intro b hok
  unfold detectHS at hok
  simp only [] at hok
  by_cases hsig : sigmaUsable (detectSigma env)
  · rw [if_pos hsig] at hok
    rcases hfold : kSweepVals.foldl
        (sweepStep env fs o (median env) (detectSigma env) (jsRound (fs * o.minBurstMs / 1000))
          (jsRound (fs * o.minGapMs / 1000)) (jsRound (fs * o.offsetMs / 1000))) none
      with _ | c
    · rw [hfold] at hok
      exact hfb b hok
    · rw [hfold] at hok
      rcases hok with ⟨rfl⟩
      exact sweepStep_foldl_inv env fs o (median env) (detectSigma env) _ _ _ Q hQ
        kSweepVals none (fun c hc => by cases hc) b hfold
  · rw [if_neg hsig] at hok
    exact hfb b hok

theorem detectHSPeakFallback_k (env : List JsVal) (fs : ℝ) (o : DetectOpts) (mg off : ℤ)
    (b : HSBest) (h : detectHSPeakFallback env fs o mg off = Except.ok b) :
    b.k = KTag.peakFallback ∨ b.k = KTag.peakDirect := by
  unfold detectHSPeakFallback at h
  simp only [] at h
  split at h
  · rename_i b2 heq
    rcases h with ⟨rfl⟩
    split at heq
    · split at heq
      · rcases heq with ⟨rfl⟩
        exact Or.inl rfl
      · cases heq
    · cases heq
  · split at h
    · rcases h with ⟨rfl⟩
      exact Or.inr rfl
    · cases h

/-- Whenever `detectHS` returns a result tagged with a numeric multiplier
`k`, the threshold it carries is `median env + k * detectSigma env` — the
`1.4826` factor never enters this detector variant. -/
theorem detectHS_thr_of_num (env : List JsVal) (fs : ℝ) (o : DetectOpts) (b : HSBest)
    (hok : detectHS env fs o = Except.ok b) :
    ∀ k : ℝ, b.k = KTag.num k →
      b.thr = oAdd (median env) (oMul (some k) (detectSigma env)) := by
  refine detectHS_sweep_result env fs o
    (fun c => ∀ k : ℝ, c.k = KTag.num k →
      c.thr = oAdd (median env) (oMul (some k) (detectSigma env))) ?_ ?_ b hok
  · intro k thr hs hmc k2 hk2
    have hthr := (madCandidate_elim env _ _ _ _ _ k hmc).1
    have hkk : k = k2 := by injection hk2
    rw [← hkk]
    exact hthr
  · intro b2 hfb k2 hk2
    rcases detectHSPeakFallback_k env fs o _ _ b2 hfb with h | h <;> rw [h] at hk2 <;> cases hk2

theorem oMul_comm (a b : JsVal) : oMul a b = oMul b a := by
  cases a <;> cases b <;> simp [oMul, oBin, mul_comm]

/-- C7 (amended): the spec's `median + k·(1.4826 × MAD)` formula holds for
the first `src/emg/app.js` detector (full-envelope median/MAD, with the
inter-quartile rescue) and for the second (baseline-window
order-statistic median/MAD, no rescue) — but not for the others: every
candidate threshold of the `src/unnamed/part_002` sweeps and of the third
`src/emg/app.js` detector is `median + k * m` with the raw MAD (in the
part_002 detectors substituted by `(P75 - P25)/1.349` only when the MAD
is NaN or below `1e-12`, and in the third app.js detector never
substituted), with no 1.4826 factor. -/
theorem claim7_threshold_formula :
    (∀ (env : List JsVal) (med m : JsVal) (mb mg off : ℤ) (k : ℝ) (thr : JsVal) (hs : List ℤ),
      madCandidate env med m mb mg off k = some (thr, hs) →
      thr = oAdd med (oMul (some k) m)) ∧
    (∀ (env : List JsVal) (k : ℝ),
      detectHSv3Threshold env k = oAdd (median env) (oMul (some k) (mad env))) ∧
    (∀ (env : List JsVal) (k : ℝ),
      detectHSv1Threshold env k = specSigmaThreshold (median env) (madRescueV1 env) k) ∧
    (∀ (env : List ℝ) (fs baselineSec k : ℝ),
      detectHSMidThreshold env fs baselineSec k =
        specSigmaThreshold (madPairMid (env.take (midBaseLen env.length baselineSec fs))).1
          (madPairMid (env.take (midBaseLen env.length baselineSec fs))).2 k) :=
  ⟨fun env med m mb mg off k _ _ h => (madCandidate_elim env med m mb mg off k h).1,
   fun _ _ => rfl,
   fun env k => by
     unfold detectHSv1Threshold specSigmaThreshold
     rw [oMul_comm (madRescueV1 env) (some 1.4826)],
   fun env fs baselineSec k => by
     simp only [detectHSMidThreshold, specSigmaThreshold]
     rw [oMul_comm (madPairMid (env.take (midBaseLen env.length baselineSec fs))).2
       (some 1.4826)]⟩

theorem claim7_env_median : median [some 3, some 3, some 4, some 5] = some 3.5 := by
  have hfm : ([some 3, some 3, some 4, some 5] : List JsVal).filterMap id = [3, 3, 4, 5] := by
    simp [List.filterMap_cons]
  have hsort : jsSortR [3, 3, 4, 5] = [3, 3, 4, 5] :=
    List.Sorted.insertionSort_eq (by norm_num [List.Sorted, List.pairwise_cons])
  unfold median
  rw [hfm, hsort]
  norm_num

theorem claim7_env_mad : mad [some 3, some 3, some 4, some 5] = some 0.5 := by
  unfold mad
  rw [claim7_env_median]
  simp only []
  have h1 : |(3 : ℝ) - 3.5| = 0.5 := by rw [abs_of_nonpos (by norm_num)]; norm_num
  have h2 : |(4 : ℝ) - 3.5| = 0.5 := by rw [abs_of_nonneg (by norm_num)]; norm_num
  have h3 : |(5 : ℝ) - 3.5| = 1.5 := by rw [abs_of_nonneg (by norm_num)]; norm_num
  have hmap : ([some 3, some 3, some 4, some 5] : List JsVal).map
      (fun v => oAbs (oSub v (some 3.5))) = [some 0.5, some 0.5, some 0.5, some 1.5] := by
    simp [oAbs, oSub, oBin, h1, h2, h3]
  rw [hmap]
  have hfm : ([some 0.5, some 0.5, some 0.5, some 1.5] : List JsVal).filterMap id =
      [0.5, 0.5, 0.5, 1.5] := by
    simp [List.filterMap_cons]
  have hsort : jsSortR [0.5, 0.5, 0.5, 1.5] = [0.5, 0.5, 0.5, 1.5] :=
    List.Sorted.insertionSort_eq (by norm_num [List.Sorted, List.pairwise_cons])
  unfold median
  rw [hfm, hsort]
  norm_num

theorem claim7_env_sigma : detectSigma [some 3, some 3, some 4, some 5] = some 0.5 := by
  unfold detectSigma
  rw [claim7_env_mad]
  show (if (0.5 : ℝ) < 1e-12 then
    oDiv (oSub (percentile [some 3, some 3, some 4, some 5] 75)
      (percentile [some 3, some 3, some 4, some 5] 25)) (some 1.349)
    else some 0.5) = some 0.5
  rw [if_neg (by norm_num)]

/-- C7 (counterexample): on the envelope `[3, 3, 4, 5]` (median 3.5,
MAD 0.5) at sweep multiplier `k = 2`, the part_002 detector's threshold is
`3.5 + 2 * 0.5 = 4.5`, while the spec formula
`median + k * (1.4826 * MAD)` gives `4.9826 ≠ 4.5`. -/
theorem claim7_counterexample :
    (2 : ℝ) ∈ kSweepVals ∧
    oAdd (median [some 3, some 3, some 4, some 5])
      (oMul (some 2) (detectSigma [some 3, some 3, some 4, some 5])) = some 4.5 ∧
    oAdd (median [some 3, some 3, some 4, some 5])
      (oMul (some 2) (oMul (some 1.4826) (mad [some 3, some 3, some 4, some 5]))) =
      some 4.9826 ∧
    (some 4.5 : JsVal) ≠ some 4.9826 := by
  refine ⟨?_, ?_, ?_, by intro h; rw [Option.some_inj] at h; norm_num at h⟩
  · unfold kSweepVals
    exact List.mem_map.mpr ⟨8, by simp [List.mem_range], by norm_num⟩
  · rw [claim7_env_median, claim7_env_sigma]
    show some ((3.5 : ℝ) + 2 * 0.5) = some 4.5
    norm_num
  · rw [claim7_env_median, claim7_env_mad]
    show some ((3.5 : ℝ) + 2 * (1.4826 * 0.5)) = some 4.9826
    norm_num

theorem claim7_madCandidate_example :
    madCandidate [some 0, some 10, some 0, some 10] (some 0) (some 1) 1 1 0 2 =
      some (some 2, [1, 3]) := by
  have hthr : oAdd (some 0 : JsVal) (oMul (some 2) (some 1)) = some 2 := by
    show some ((0 : ℝ) + 2 * 1) = some 2
    norm_num
  have hmask : ([some 0, some 10, some 0, some 10] : List JsVal).map
      (fun v => decide (fgt v (oAdd (some 0) (oMul (some 2) (some 1))))) =
      [false, true, false, true] := by
    rw [hthr]
    norm_num [fgt]
  unfold madCandidate
  simp only []
  rw [hmask, hthr]
  have hsegs : (risingEdges [false, true, false, true]).filter
      (fun se => decide ((1 : ℤ) ≤ (se.2 : ℤ) - (se.1 : ℤ))) = [(1, 2), (3, 4)] := by decide
  rw [hsegs]
  rw [if_neg (by decide)]
  have hmerge : applyOffsetAndMerge ([((1 : ℕ) : ℤ), ((3 : ℕ) : ℤ)]) 0 1
      (([some 0, some 10, some 0, some 10] : List JsVal).length : ℤ) = [1, 3] := by decide
  have hmap2 : ([((1, 2) : ℕ × ℕ), (3, 4)]).map (fun se => ((se.1 : ℕ) : ℤ)) =
      [((1 : ℕ) : ℤ), ((3 : ℕ) : ℤ)] := by decide
  rw [hmap2, hmerge]
  rw [if_neg (by decide)]

/-- C7 (witness): the amended threshold formula instantiated on a concrete
candidate the sweep accepts. -/
theorem claim7_threshold_formula_witness :
    madCandidate [some 0, some 10, some 0, some 10] (some 0) (some 1) 1 1 0 2 =
      some (some 2, [1, 3]) ∧
    (some 2 : JsVal) = oAdd (some 0) (oMul (some 2) (some 1)) :=
  ⟨claim7_madCandidate_example,
   claim7_threshold_formula.1 [some 0, some 10, some 0, some 10] (some 0) (some 1) 1 1 0 2
     (some 2) [1, 3] claim7_madCandidate_example⟩

theorem detectHSPeakFallback_min2 (env : List JsVal) (fs : ℝ) (o : DetectOpts) (mg off : ℤ)
    (b : HSBest) (h : detectHSPeakFallback env fs o mg off = Except.ok b) :
    2 ≤ b.hs.length := by
  unfold detectHSPeakFallback at h
  simp only [] at h
  split at h
  · rename_i b2 heq
    rcases h with ⟨rfl⟩
    split at heq
    · split at heq
      · rename_i hlen
        rcases heq with ⟨rfl⟩
        exact hlen
      · cases heq
    · cases heq
  · split at h
    · rename_i hlen
      rcases h with ⟨rfl⟩
      exact hlen
    · cases h

theorem jsGet_replicate (n : ℕ) (v : JsVal) (i : ℕ) :
    jsGet (List.replicate n v) i = v ∨ jsGet (List.replicate n v) i = none := by
  unfold jsGet
  rw [List.getD_eq_getElem?_getD, List.getElem?_replicate]
  by_cases h : i < n
  · rw [if_pos h]
    exact Or.inl rfl
  · rw [if_neg h]
    exact Or.inr rfl

theorem localMaxima_replicate (n : ℕ) (v : JsVal) (hself : ¬ fgt v v) :
    localMaxima (List.replicate n v) = [] := by
  unfold localMaxima
  rw [List.filter_eq_nil_iff]
  intro i _
  have hnot : ¬ fgt (jsGet (List.replicate n v) i) (jsGet (List.replicate n v) (i - 1)) := by
    rcases jsGet_replicate n v i with h1 | h1 <;>
      rcases jsGet_replicate n v (i - 1) with h2 | h2 <;> rw [h1, h2]
    · exact hself
    · exact fgt_none_right
    · exact fgt_none_left
    · exact fgt_none_left
  simp [hnot]

theorem pickPeaksGreedy_of_no_maxima {y : List JsVal} (h : localMaxima y = [])
    (minDist : ℤ) (thr : JsVal) (mc : Option ℝ) :
    pickPeaksGreedy y minDist thr mc = [] := by
  unfold pickPeaksGreedy
  rw [h]
  rfl

theorem detectHSPeakFallback_no_peaks (env : List JsVal) (fs : ℝ) (o : DetectOpts)
    (mg off : ℤ)
    (h : pickPeaksGreedy env mg (percentile env 80) o.expectedCount = []) :
    detectHSPeakFallback env fs o mg off = Except.error DetectErr.detectionFailure := by
  unfold detectHSPeakFallback
  simp only []
  rw [h]
  rw [if_neg (by decide)]
  have hd : applyOffsetAndMerge (([] : List ℕ).map fun p => ((p : ℕ) : ℤ)) off mg
      ((env.length : ℕ) : ℤ) = [] := rfl
  rw [hd]
  rw [if_neg (by decide)]

theorem median_replicate_none (n : ℕ) : median (List.replicate n none) = none := by
  unfold median
  rw [List.filterMap_replicate]
  rfl

theorem percentile_replicate_none (n : ℕ) (p : ℝ) :
    percentile (List.replicate n none) p = none := by
  unfold percentile
  rw [List.filterMap_replicate]
  rfl

theorem mad_replicate_none (n : ℕ) : mad (List.replicate n none) = none := by
  unfold mad
  rw [median_replicate_none]
  simp only []
  have hmap : (List.replicate n (none : JsVal)).map (fun v => oAbs (oSub v none)) =
      List.replicate n none := by
    rw [List.map_replicate]
    rfl
  rw [hmap, median_replicate_none]

theorem detectSigma_replicate_none (n : ℕ) :
    detectSigma (List.replicate n none) = none := by
  unfold detectSigma
  rw [mad_replicate_none]
  show oDiv (oSub (percentile (List.replicate n none) 75)
    (percentile (List.replicate n none) 25)) (some 1.349) = none
  rw [percentile_replicate_none, percentile_replicate_none]
  rfl

theorem getD_replicate_self (n : ℕ) (a : ℝ) (i : ℕ) :
    (List.replicate n a).getD i a = a := by
  rw [List.getD_eq_getElem?_getD, List.getElem?_replicate]
  by_cases h : i < n
  · rw [if_pos h]
    rfl
  · rw [if_neg h]
    rfl

theorem jsSortR_replicate (n : ℕ) (a : ℝ) :
    jsSortR (List.replicate n a) = List.replicate n a :=
  List.Sorted.insertionSort_eq (List.pairwise_replicate.mpr (Or.inr (le_refl a)))

theorem median_replicate_zero (n : ℕ) (hn : 0 < n) :
    median (List.replicate n (some 0)) = some 0 := by
  have hfm : (List.replicate n (some (0 : ℝ))).filterMap id = List.replicate n 0 := by
    rw [List.filterMap_replicate]
    rfl
  unfold median
  rw [hfm, jsSortR_replicate]
  simp only [List.length_replicate]
  rw [if_neg (by omega)]
  split <;> simp [getD_replicate_self]

theorem percentile_replicate_zero (n : ℕ) (hn : 0 < n) (p : ℝ) :
    percentile (List.replicate n (some 0)) p = some 0 := by
  have hfm : (List.replicate n (some (0 : ℝ))).filterMap id = List.replicate n 0 := by
    rw [List.filterMap_replicate]
    rfl
  unfold percentile
  rw [hfm, jsSortR_replicate]
  simp only [List.length_replicate]
  rw [if_neg (by omega)]
  simp [getD_replicate_self]

theorem mad_replicate_zero (n : ℕ) (hn : 0 < n) :
    mad (List.replicate n (some 0)) = some 0 := by
  unfold mad
  rw [median_replicate_zero n hn]
  simp only []
  have habs : oAbs (oSub (some (0 : ℝ)) (some 0)) = some 0 := by
    show some |(0 : ℝ) - 0| = some 0
    norm_num
  have hmap : (List.replicate n (some 0 : JsVal)).map (fun v => oAbs (oSub v (some 0))) =
      List.replicate n (some 0) := by
    rw [List.map_replicate, habs]
  rw [hmap, median_replicate_zero n hn]

theorem detectSigma_replicate_zero (n : ℕ) (hn : 0 < n) :
    detectSigma (List.replicate n (some 0)) = some 0 := by
  unfold detectSigma
  rw [mad_replicate_zero n hn]
  show (if (0 : ℝ) < 1e-12 then
    oDiv (oSub (percentile (List.replicate n (some 0)) 75)
      (percentile (List.replicate n (some 0)) 25)) (some 1.349) else some 0) = some 0
  rw [if_pos (by norm_num), percentile_replicate_zero n hn, percentile_replicate_zero n hn]
  show some (((0 : ℝ) - 0) / 1.349) = some 0
  norm_num

/-- The result predicate behind the section-7 contract: a detector result
that is a success carries at least 2 events. -/
def resultHasMin2Events : Except DetectErr HSBest → Prop
  | Except.ok b => 2 ≤ b.hs.length
  | Except.error _ => True

theorem detectHS_replicate_error (fs : ℝ) (o : DetectOpts) (n : ℕ) (v : JsVal)
    (hsig : ¬ sigmaUsable (detectSigma (List.replicate n v))) (hself : ¬ fgt v v) :
    detectHS (List.replicate n v) fs o = Except.error DetectErr.detectionFailure := by
  unfold detectHS
  simp only []
  rw [if_neg hsig]
  exact detectHSPeakFallback_no_peaks _ fs o _ _
    (pickPeaksGreedy_of_no_maxima (localMaxima_replicate n v hself) _ _ _)

/-- C2: the detector never succeeds with fewer than 2 events — every
successful result of `detectHS` carries at least 2 events — and on every
all-zero envelope and every all-NaN envelope, of any length, `detectHS`
raises `DetectionFailure` (the thrown error of `src/unnamed/part_002` line
1153) rather than succeeding with an empty result. -/
theorem claim2_detection_failure :
    (∀ (env : List JsVal) (fs : ℝ) (o : DetectOpts),
      resultHasMin2Events (detectHS env fs o)) ∧
    (∀ (n : ℕ) (fs : ℝ) (o : DetectOpts),
      detectHS (List.replicate n (some 0)) fs o = Except.error DetectErr.detectionFailure) ∧
    (∀ (n : ℕ) (fs : ℝ) (o : DetectOpts),
      detectHS (List.replicate n none) fs o = Except.error DetectErr.detectionFailure) := by
  refine ⟨fun env fs o => ?_, fun n fs o => ?_, fun n fs o => ?_⟩
  · rcases hok : detectHS env fs o with e | b
    · exact trivial
    · show 2 ≤ b.hs.length
      refine detectHS_sweep_result env fs o (fun c => 2 ≤ c.hs.length) ?_ ?_ b hok
      · intro k thr hs hmc
        exact (madCandidate_elim env _ _ _ _ _ k hmc).2.2
      · intro b2 hfb
        exact detectHSPeakFallback_min2 env fs o _ _ b2 hfb
  · rcases Nat.eq_zero_or_pos n with hn | hn
    · subst hn
      refine detectHS_replicate_error fs o 0 (some 0) ?_ (by simp)
      show ¬ sigmaUsable (detectSigma [])
      have h0 : detectSigma ([] : List JsVal) = none := detectSigma_replicate_none 0
      rw [h0]
      exact fun h => h
    · refine detectHS_replicate_error fs o n (some 0) ?_ (by simp)
      rw [detectSigma_replicate_zero n hn]
      show ¬ (1e-12 : ℝ) < 0
      norm_num
  · refine detectHS_replicate_error fs o n none ?_ fgt_none_left
    rw [detectSigma_replicate_none n]
    exact fun h => h

/-- C9: the pipeline is a pure function of its inputs — two runs on
identical input and configuration return identical results, in particular
identical event index sets and identical mean/SD arrays; the embedding has
no other state a run could depend on, mirroring the absence of randomness
and of hidden mutable state in the source. -/
theorem claim9_pipeline_deterministic :
    ∀ (t : List ℝ) (x : List JsVal) (fs : ℝ) (params : PipeParams) (ec : Option ℝ),
      computePipeline t x fs params ec = computePipeline t x fs params ec ∧
      (computePipeline t x fs params ec).map (fun r => (r.hs, r.mean, r.sd)) =
        (computePipeline t x fs params ec).map (fun r => (r.hs, r.mean, r.sd)) :=
  fun _ _ _ _ _ => ⟨rfl, rfl⟩

theorem filterMap_id_map_some (l : List ℝ) :
    (l.map (some : ℝ → JsVal)).filterMap id = l := by
  induction l with
  | nil => rfl
  | cons a l ih => simp [List.filterMap_cons, ih]

theorem varRatioFinite_map_some (l : List ℝ) (hne : l ≠ []) :
    varRatioFinite (l.map some) = 1 := by
  unfold varRatioFinite
  rw [filterMap_id_map_some, List.length_map]
  rw [if_neg (by simpa [List.length_eq_zero] using hne)]
  have h0 : (l.length : ℝ) ≠ 0 := by
    simpa [List.length_eq_zero] using hne
  exact div_self h0

theorem sanitizeArray_eq_map_some (x : List JsVal) :
    ∃ l : List ℝ, sanitizeArray x = l.map some ∧ (x ≠ [] → l ≠ []) := by
  unfold sanitizeArray
  simp only []
  split
  · rename_i v rest _
    exact ⟨List.replicate (splitNones x).1 v ++ v :: fillGaps v rest, by rfl,
      fun _ h => by simp at h⟩
  · refine ⟨List.replicate x.length 0, by rw [List.map_replicate], fun hne h => hne ?_⟩
    have := congrArg List.length h
    simp at this
    exact this

theorem mean_replicate_zero4 : mean (List.replicate 4 (some (0 : ℝ))) = some 0 := by
  unfold mean
  have hfm : (List.replicate 4 (some (0 : ℝ))).filterMap id = List.replicate 4 0 := rfl
  rw [hfm, if_neg (by norm_num)]
  norm_num [List.sum_replicate]

theorem movingRMS_zero4 :
    movingRMS (List.replicate 4 (some (0 : ℝ))) 1 = List.replicate 4 (some 0) := by
  show movingRMS [some 0, some 0, some 0, some 0] 1 = [some 0, some 0, some 0, some 0]
  unfold movingRMS
  norm_num [List.scanl, jsGet, oSqrt, List.range_succ, Real.sqrt_zero]

/-- C6: the `finiteRatio < 0.95` floor of `computePipeline` can never fire
for a nonempty input, because the ratio is computed on the *sanitized*
array, which is always fully finite — so a recording whose raw finite
fraction is far below 95% is not rejected with the too-many-missing error;
on the concrete input `[NaN, NaN, NaN, 0]` (raw finite fraction 0.25) the
pipeline sails past the floor and instead reaches event detection, which
throws its own failure. -/
theorem claim6_missing_data_floor :
    (∀ (v : JsVal) (x : List JsVal), varRatioFinite (sanitizeArray (v :: x)) = 1) ∧
    varRatioFinite [none, none, none, (some 0 : JsVal)] = 1 / 4 ∧
    computePipeline [] [none, none, none, some 0] 1 (PipeParams.mk 0 0 1000 30 450 80 101)
      none = Except.error PipeErr.detectFail := by
  refine ⟨fun v x => ?_, ?_, ?_⟩
  · obtain ⟨l, hl, hne⟩ := sanitizeArray_eq_map_some (v :: x)
    rw [hl]
    exact varRatioFinite_map_some l (hne (by simp))
  · unfold varRatioFinite
    norm_num [List.filterMap]
  · have hsan : sanitizeArray [none, none, none, (some 0 : JsVal)] =
        List.replicate 4 (some 0) := rfl
    have hratio : varRatioFinite (List.replicate 4 (some (0 : ℝ))) = 1 := by
      rw [show (List.replicate 4 (some (0 : ℝ))) = (List.replicate 4 (0 : ℝ)).map some from rfl]
      refine varRatioFinite_map_some _ (fun h => ?_)
      have := congrArg List.length h
      simp at this
    have hdet : detectHS (List.replicate 4 (some (0 : ℝ))) 1
        (DetectOpts.mk none 30 450 80 (7 / 20, 8 / 5)) = Except.error DetectErr.detectionFailure := by
      refine detectHS_replicate_error 1 _ 4 (some 0) ?_ (by simp)
      rw [detectSigma_replicate_zero 4 (by norm_num)]
      show ¬ (1e-12 : ℝ) < 0
      norm_num
    simp only [computePipeline]
    rw [hsan]
    norm_num [hratio, mean_replicate_zero4, jsRound, movingRMS_zero4]
    rw [hdet]

theorem twoPointer_mem (tol shift : ℝ) :
    ∀ (et : List (ℝ × ℕ)) (vt : List ℝ) (k : ℕ), k ∈ twoPointer tol shift et vt →
      ∃ a, (a, k) ∈ et ∧ ∃ b, b ∈ vt ∧ |a + shift - b| ≤ tol
  | [], vt, k, h => by simp [twoPointer] at h
  | p :: et, [], k, h => by simp [twoPointer] at h
  | (a, k0) :: et, b :: vt, k, h => by
    simp only [twoPointer] at h
    by_cases h1 : |a + shift - b| ≤ tol
    · rw [if_pos h1] at h
      rcases List.mem_cons.mp h with rfl | h2
      · exact ⟨a, List.mem_cons_self _ _, b, List.mem_cons_self _ _, h1⟩
      · obtain ⟨a2, ha2, b2, hb2, hd⟩ := twoPointer_mem tol shift et vt k h2
        exact ⟨a2, List.mem_cons_of_mem _ ha2, b2, List.mem_cons_of_mem _ hb2, hd⟩
    · rw [if_neg h1] at h
      by_cases h2 : a + shift - b < -tol
      · rw [if_pos h2] at h
        obtain ⟨a2, ha2, b2, hb2, hd⟩ := twoPointer_mem tol shift et (b :: vt) k h
        exact ⟨a2, List.mem_cons_of_mem _ ha2, b2, hb2, hd⟩
      · rw [if_neg h2] at h
        obtain ⟨a2, ha2, b2, hb2, hd⟩ := twoPointer_mem tol shift ((a, k0) :: et) vt k h
        exact ⟨a2, ha2, b2, List.mem_cons_of_mem _ hb2, hd⟩
termination_by et vt k _ => et.length + vt.length
decreasing_by
  all_goals simp only [List.length_cons]
  all_goals omega

theorem keepHsMatchedToVideo_sublist (hsIdx : List ℤ) (tSec videoEvents : List ℝ)
    (syncRange tolMs : ℝ) :
    (keepHsMatchedToVideo hsIdx tSec videoEvents syncRange tolMs).hsKept.Sublist hsIdx := by
  simp only [keepHsMatchedToVideo]
  have h1 : ((hsIdx.enum.filter fun p => decide (p.1 ∈ twoPointer (tolMs / 1000)
      (bestShiftMatch (hsIdx.map fun i => jsGetTime tSec i) videoEvents syncRange 0.01
        (tolMs / 1000)).shift
      (sortTimePairs ((hsIdx.map fun i => jsGetTime tSec i).enum.map fun p => (p.2, p.1)))
      (jsSortR videoEvents))).Sublist hsIdx.enum) := List.filter_sublist _
  simpa [List.enum_map_snd] using h1.map Prod.snd

/-- C8: the video reconciler never invents events — its kept list is a
subsequence of the input EMG events, its `matched` count is the size of
that kept list, and every kept event's time lands within the `tolMs`
tolerance of some external (video) event at the selected shift; the `run`
selection keeps the reconciled events exactly when at least 4 matched,
falling back to the every-other decimation of the unreconciled events
below that floor and whenever video assistance is off. -/
theorem claim8_reconciler_subsequence :
    ∀ (hsIdx : List ℤ) (t videoEvents : List ℝ) (syncRange tolMs fs : ℝ) (expTA : Option ℝ),
      (keepHsMatchedToVideo hsIdx t videoEvents syncRange tolMs).hsKept.Sublist hsIdx ∧
      (keepHsMatchedToVideo hsIdx t videoEvents syncRange tolMs).matched =
        (keepHsMatchedToVideo hsIdx t videoEvents syncRange tolMs).hsKept.length ∧
      (∀ j, j ∈ (keepHsMatchedToVideo hsIdx t videoEvents syncRange tolMs).hsKept →
        ∃ b, b ∈ videoEvents ∧
          |jsGetTime t j + (keepHsMatchedToVideo hsIdx t videoEvents syncRange tolMs).shift - b|
            ≤ tolMs / 1000) ∧
      selectHsRef true hsIdx t videoEvents syncRange tolMs fs expTA =
        (if 4 ≤ (keepHsMatchedToVideo hsIdx t videoEvents syncRange tolMs).matched then
          (keepHsMatchedToVideo hsIdx t videoEvents syncRange tolMs).hsKept
        else chooseEveryOtherIfDouble hsIdx fs expTA) ∧
      selectHsRef false hsIdx t videoEvents syncRange tolMs fs expTA =
        chooseEveryOtherIfDouble hsIdx fs expTA := by
  intro hsIdx t videoEvents syncRange tolMs fs expTA
  refine ⟨keepHsMatchedToVideo_sublist hsIdx t videoEvents syncRange tolMs, rfl, ?_, rfl, rfl⟩
  intro j hj
  simp only [keepHsMatchedToVideo] at hj ⊢
  rw [List.mem_map] at hj
  obtain ⟨p, hp, hpj⟩ := hj
  rw [List.mem_filter] at hp
  obtain ⟨hpe, hpd⟩ := hp
  have hk := of_decide_eq_true hpd
  obtain ⟨a, hae, b, hbv, hd⟩ := twoPointer_mem _ _ _ _ _ hk
  have hae2 : (a, p.1) ∈ ((hsIdx.map fun i => jsGetTime t i).enum.map fun q => (q.2, q.1)) := by
    unfold sortTimePairs at hae
    exact (List.perm_insertionSort _ _).mem_iff.mp hae
  rw [List.mem_map] at hae2
  obtain ⟨q, hqe, hq⟩ := hae2
  have hq1 : q.2 = a := congrArg Prod.fst hq
  have hq2 : q.1 = p.1 := congrArg Prod.snd hq
  have hqg : (hsIdx.map fun i => jsGetTime t i)[q.1]? = some q.2 := by
    rw [show q = (q.1, q.2) from rfl] at hqe
    exact List.mk_mem_enum_iff_getElem?.mp hqe
  have hpg : hsIdx[p.1]? = some p.2 := by
    rw [show p = (p.1, p.2) from rfl] at hpe
    exact List.mk_mem_enum_iff_getElem?.mp hpe
  have ha : a = jsGetTime t j := by
    rw [List.getElem?_map, hq2, hpg] at hqg
    have h3 : jsGetTime t p.2 = q.2 := Option.some.inj hqg
    rw [← hq1, ← h3, hpj]
  refine ⟨b, ?_, ?_⟩
  · unfold jsSortR at hbv
    exact (List.perm_insertionSort _ _).mem_iff.mp hbv
  · rw [← ha]
    exact hd

end EMG
